import Mathlib

/-!
Verification of the libusb descriptor-parsing module (src/libusb/descriptor.c).

Shallow embedding conventions:
* A byte buffer is a `List Nat`; reads use `List.getD _ _ 0`, so a read past the
  end of the buffer (undefined behaviour in the C source) is modelled as 0.
* The C functions advance a pointer and keep a separate signed `size`; the
  embedding consumes a prefix of the list (`List.drop`) and tracks `size : Int`
  exactly as the source does (it may go negative).
* `malloc` is modelled as always succeeding, so the LIBUSB_ERROR_NO_MEM paths
  are not represented; every other error path returns the same code as the C
  source (`-1`, the value of LIBUSB_ERROR_IO).
* The host is little-endian, so the native-order field kinds of the field codec
  copy wire bytes verbatim.
* The altsetting loop of `parse_interface` is written with explicit fuel; a
  `none` result means the fuel ran out before the loop finished.
* Descriptor-type codes come from the specification table (device=1, config=2,
  string=3, interface=4, endpoint=5); the architectural maxima
  USB_MAXINTERFACES = USB_MAXENDPOINTS = 32 are modelled from the spec, since
  libusbi.h is not part of the sources under verification.
-/

def DESC_HEADER_LENGTH : Nat := 2
def DEVICE_DESC_LENGTH : Nat := 18
def CONFIG_DESC_LENGTH : Nat := 9
def INTERFACE_DESC_LENGTH : Nat := 9
def ENDPOINT_DESC_LENGTH : Nat := 7
def ENDPOINT_AUDIO_DESC_LENGTH : Nat := 9

def LIBUSB_DT_DEVICE : Nat := 1
def LIBUSB_DT_CONFIG : Nat := 2
def LIBUSB_DT_STRING : Nat := 3
def LIBUSB_DT_INTERFACE : Nat := 4
def LIBUSB_DT_ENDPOINT : Nat := 5
def LIBUSB_DT_INTERFACE_SIZE : Nat := 9

/-- Modelled from the spec: architectural maximum for the declared interface
count of a configuration (USB_MAXINTERFACES, defined in libusbi.h which is not
among the sources). -/
def USB_MAXINTERFACES : Nat := 32

/-- Modelled from the spec: architectural maximum for the declared endpoint
count of an alternate setting (USB_MAXENDPOINTS, defined in libusbi.h which is
not among the sources). -/
def USB_MAXENDPOINTS : Nat := 32

/-- The value of LIBUSB_ERROR_IO, the error code used by the parser for every
validation failure (parse_endpoint returns the literal -1, which coincides). -/
def LIBUSB_ERROR_IO_CODE : Int := -1

/-- Read byte number `i` of a buffer; out-of-range reads (undefined behaviour
in C) give 0. -/
def byteAt (b : List Nat) (i : Nat) : Nat := b.getD i 0

/-- Model of `memcpy(dst, src, n)` from the start of `src`: the first `n`
bytes, padding with 0 where the C source would read out of bounds. -/
def padTake (l : List Nat) : Nat → List Nat
  | 0 => []
  | n + 1 => l.getD 0 0 :: padTake (l.drop 1) n

/-- struct libusb_endpoint_descriptor. -/
structure EndpointDescriptor where
  bLength : Nat := 0
  bDescriptorType : Nat := 0
  bEndpointAddress : Nat := 0
  bmAttributes : Nat := 0
  wMaxPacketSize : Nat := 0
  bInterval : Nat := 0
  bRefresh : Nat := 0
  bSynchAddress : Nat := 0
  extra : Option (List Nat) := none
  extra_length : Nat := 0
deriving DecidableEq, Repr

/-- struct libusb_interface_descriptor (one alternate setting).  The
`endpoint` field is `none` exactly when the C field is the null pointer. -/
structure InterfaceDescriptor where
  bLength : Nat := 0
  bDescriptorType : Nat := 0
  bInterfaceNumber : Nat := 0
  bAlternateSetting : Nat := 0
  bNumEndpoints : Nat := 0
  bInterfaceClass : Nat := 0
  bInterfaceSubClass : Nat := 0
  bInterfaceProtocol : Nat := 0
  iInterface : Nat := 0
  endpoint : Option (List EndpointDescriptor) := none
  extra : Option (List Nat) := none
  extra_length : Nat := 0
deriving DecidableEq, Repr

/-- struct libusb_interface: the ordered alternate settings of one logical
interface (num_altsetting is the length of the list). -/
structure Interface where
  altsetting : List InterfaceDescriptor := []
deriving DecidableEq, Repr

/-- struct libusb_config_descriptor. -/
structure ConfigDescriptor where
  bLength : Nat := 0
  bDescriptorType : Nat := 0
  wTotalLength : Nat := 0
  bNumInterfaces : Nat := 0
  bConfigurationValue : Nat := 0
  iConfiguration : Nat := 0
  bmAttributes : Nat := 0
  MaxPower : Nat := 0
  interface : Option (List Interface) := none
  extra : Option (List Nat) := none
  extra_length : Nat := 0
deriving DecidableEq, Repr

/-- The skip loop shared by parse_endpoint (lines 117-136), parse_interface
(lines 225-243) and parse_configuration (lines 366-386): scan forward over
class- or vendor-specific descriptors until a top-level descriptor type
(endpoint, interface, config, device) is found or fewer than
DESC_HEADER_LENGTH bytes remain.  All three loops fail when a scanned
descriptor declares a length below 2; only the configuration-level loop
(`checkOverrun = true`) additionally fails when the declared length exceeds
the remaining size.  Returns `none` on failure, otherwise the number of bytes
skipped and the new remaining size. -/
def skipRun (checkOverrun : Bool) (buf : List Nat) (size : Int) : Option (Nat × Int) :=
  if h2 : 2 ≤ size then
    let len := buf.getD 0 0
    if hl : len < 2 then none
    else if checkOverrun ∧ size < (len : Int) then none
    else if buf.getD 1 0 = LIBUSB_DT_ENDPOINT ∨ buf.getD 1 0 = LIBUSB_DT_INTERFACE ∨
        buf.getD 1 0 = LIBUSB_DT_CONFIG ∨ buf.getD 1 0 = LIBUSB_DT_DEVICE then
      some (0, size)
    else
      match skipRun checkOverrun (buf.drop len) (size - len) with
      | none => none
      | some (c, s) => some (len + c, s)
  else some (0, size)
termination_by size.toNat
decreasing_by
  simp only [not_lt] at hl
  omega

/-- parse_endpoint (descriptor.c lines 81-158).  Returns the decoded endpoint
and the number of bytes consumed, or the error code returned by the C
function.  The caller zeroes the destination slot, so the untouched-fields
cases produce the all-zero record. -/
def parse_endpoint (buf : List Nat) (size : Int) : Except Int (EndpointDescriptor × Nat) :=
  let hLen := buf.getD 0 0
  if size < (hLen : Int) then .error (-1)
  else if buf.getD 1 0 ≠ LIBUSB_DT_ENDPOINT then .ok ({}, 0)
  else
    let ep0 : EndpointDescriptor :=
      if ENDPOINT_AUDIO_DESC_LENGTH ≤ hLen then
        { bLength := buf.getD 0 0, bDescriptorType := buf.getD 1 0,
          bEndpointAddress := buf.getD 2 0, bmAttributes := buf.getD 3 0,
          wMaxPacketSize := buf.getD 4 0 + 256 * buf.getD 5 0,
          bInterval := buf.getD 6 0, bRefresh := buf.getD 7 0,
          bSynchAddress := buf.getD 8 0 }
      else if ENDPOINT_DESC_LENGTH ≤ hLen then
        { bLength := buf.getD 0 0, bDescriptorType := buf.getD 1 0,
          bEndpointAddress := buf.getD 2 0, bmAttributes := buf.getD 3 0,
          wMaxPacketSize := buf.getD 4 0 + 256 * buf.getD 5 0,
          bInterval := buf.getD 6 0 }
      else {}
    match skipRun false (buf.drop hLen) (size - hLen) with
    | none => .error (-1)
    | some (len, _) =>
      if len = 0 then .ok (ep0, hLen)
      else
        .ok ({ ep0 with
                extra := some (padTake (buf.drop hLen) len),
                extra_length := len }, hLen + len)

/-- The endpoint for-loop of parse_interface (lines 282-298): decode `n`
endpoint slots in sequence, checking before each call that the declared
header length does not exceed the remaining size.  Returns the endpoint list
and the total bytes consumed. -/
def parse_endpoints (buf : List Nat) (size : Int) : Nat → Except Int (List EndpointDescriptor × Nat)
  | 0 => .ok ([], 0)
  | n + 1 =>
    if size < (buf.getD 0 0 : Int) then .error (-1)
    else
      match parse_endpoint buf size with
      | .error e => .error e
      | .ok (ep, r) =>
        match parse_endpoints (buf.drop r) (size - r) n with
        | .error e => .error e
        | .ok (eps, c) => .ok (ep :: eps, r + c)

/-- The continuation test at the end of the altsetting loop of parse_interface
(lines 301-306): the loop continues exactly when at least
LIBUSB_DT_INTERFACE_SIZE bytes remain and the peeked descriptor has interface
type and a nonzero bAlternateSetting. -/
def iface_continue_cond (buf : List Nat) (size : Int) : Bool :=
  !(decide (size < (LIBUSB_DT_INTERFACE_SIZE : Int)) ||
    decide (buf.getD 1 0 ≠ LIBUSB_DT_INTERFACE) ||
    decide (buf.getD 3 0 = 0))

/-- The altsetting loop of parse_interface (descriptor.c lines 184-313),
with explicit fuel for the outer while loop.  The outer `none` means the fuel
ran out; otherwise the result is the C result: the ordered altsetting list
plus bytes consumed, or an error code. -/
def parse_interface_loop (fuel : Nat) (buf : List Nat) (size : Int) :
    Option (Except Int (List InterfaceDescriptor × Nat)) :=
  match fuel with
  | 0 => none
  | fuel + 1 =>
    if size < (INTERFACE_DESC_LENGTH : Int) then some (.ok ([], 0))
    else
      let hLen := buf.getD 0 0
      let buf1 := buf.drop hLen
      match skipRun false buf1 (size - hLen) with
      | none => some (.error LIBUSB_ERROR_IO_CODE)
      | some (len, size2) =>
        let ifd : InterfaceDescriptor :=
          { bLength := buf.getD 0 0, bDescriptorType := buf.getD 1 0,
            bInterfaceNumber := buf.getD 2 0, bAlternateSetting := buf.getD 3 0,
            bNumEndpoints := buf.getD 4 0, bInterfaceClass := buf.getD 5 0,
            bInterfaceSubClass := buf.getD 6 0, bInterfaceProtocol := buf.getD 7 0,
            iInterface := buf.getD 8 0, endpoint := none,
            extra := if len = 0 then none else some (padTake buf1 len),
            extra_length := len }
        let buf2 := buf1.drop len
        if 2 ≤ size2 ∧ (buf2.getD 1 0 = LIBUSB_DT_CONFIG ∨ buf2.getD 1 0 = LIBUSB_DT_DEVICE) then
          some (.ok ([ifd], hLen + len))
        else if USB_MAXENDPOINTS < ifd.bNumEndpoints then
          some (.error LIBUSB_ERROR_IO_CODE)
        else
          match
            (if ifd.bNumEndpoints = 0 then Except.ok ([], 0)
             else parse_endpoints buf2 size2 ifd.bNumEndpoints) with
          | .error e => some (.error e)
          | .ok (eps, c) =>
            let ifd2 := { ifd with
              endpoint := if ifd.bNumEndpoints = 0 then none else some eps }
            let buf3 := buf2.drop c
            let size3 := size2 - c
            if iface_continue_cond buf3 size3 then
              match parse_interface_loop fuel buf3 size3 with
              | none => none
              | some (.error e) => some (.error e)
              | some (.ok (rest, c2)) => some (.ok (ifd2 :: rest, hLen + len + c + c2))
            else some (.ok ([ifd2], hLen + len + c))

/-- parse_interface: wraps the altsetting loop result into the Interface
record (the C function fills the caller-provided struct). -/
def parse_interface (fuel : Nat) (buf : List Nat) (size : Int) :
    Option (Except Int (Interface × Nat)) :=
  match parse_interface_loop fuel buf size with
  | none => none
  | some (.error e) => some (.error e)
  | some (.ok (alts, c)) => some (.ok ({ altsetting := alts }, c))

/-- The interface loop of parse_configuration (lines 359-411), iterating the
declared interface count.  Arguments after the count: current buffer,
remaining size, and the extra blob recorded so far with its length (the C
fields config.extra and config.extra_length, initialised to NULL and 0).
Returns the interfaces, the final extra blob and length, and the final
remaining size. -/
def parse_config_interfaces (fuel : Nat) :
    Nat → List Nat → Int → Option (List Nat) → Nat →
    Option (Except Int (List Interface × Option (List Nat) × Nat × Int))
  | 0, _, size, ex, exl => some (.ok ([], ex, exl, size))
  | n + 1, buf, size, ex, exl =>
    match skipRun true buf size with
    | none => some (.error LIBUSB_ERROR_IO_CODE)
    | some (len, size1) =>
      let buf1 := buf.drop len
      let ex2 := if len ≠ 0 ∧ exl = 0 then some (padTake buf len) else ex
      let exl2 := if len ≠ 0 ∧ exl = 0 then len else exl
      match parse_interface fuel buf1 size1 with
      | none => none
      | some (.error e) => some (.error e)
      | some (.ok (intf, c)) =>
        match parse_config_interfaces fuel n (buf1.drop c) (size1 - c) ex2 exl2 with
        | none => none
        | some (.error e) => some (.error e)
        | some (.ok (ifs, ex3, exl3, szf)) => some (.ok (intf :: ifs, ex3, exl3, szf))

/-- parse_configuration (descriptor.c lines 328-418).  Decodes the 9-byte
header, validates the interface count, then runs the interface loop over
wTotalLength bytes.  On success returns the configuration and the C return
value: the remaining (possibly negative) size. -/
def parse_configuration (fuel : Nat) (buf : List Nat) :
    Option (Except Int (ConfigDescriptor × Int)) :=
  let cfg0 : ConfigDescriptor :=
    { bLength := buf.getD 0 0, bDescriptorType := buf.getD 1 0,
      wTotalLength := buf.getD 2 0 + 256 * buf.getD 3 0,
      bNumInterfaces := buf.getD 4 0, bConfigurationValue := buf.getD 5 0,
      iConfiguration := buf.getD 6 0, bmAttributes := buf.getD 7 0,
      MaxPower := buf.getD 8 0 }
  if USB_MAXINTERFACES < cfg0.bNumInterfaces then some (.error LIBUSB_ERROR_IO_CODE)
  else
    match parse_config_interfaces fuel cfg0.bNumInterfaces (buf.drop cfg0.bLength)
        ((cfg0.wTotalLength : Int) - (cfg0.bLength : Int)) none 0 with
    | none => none
    | some (.error e) => some (.error e)
    | some (.ok (ifs, ex, exl, szf)) =>
      some (.ok ({ cfg0 with interface := some ifs, extra := ex, extra_length := exl }, szf))

/-- usbi_parse_descriptor (descriptor.c lines 39-73), on a little-endian host.
Walks the format characters, reading from `src` at source cursor `sp` and
writing into the destination byte image `dest` at cursor `dp`, applying the
alignment adjustments of the source (dp advances over padding bytes without
writing them).  Returns the final destination image and both cursors. -/
def runDesc : List Char → List Nat → Nat → List Nat → Nat → List Nat × Nat × Nat
  | [], _, sp, dest, dp => (dest, sp, dp)
  | c :: fmt, src, sp, dest, dp =>
    if c = 'b' then
      runDesc fmt src (sp + 1) (dest.set dp (src.getD sp 0)) (dp + 1)
    else if c = 'w' then
      let w := (src.getD (sp + 1) 0) * 256 + src.getD sp 0
      let dp1 := dp + dp % 2
      runDesc fmt src (sp + 2) ((dest.set dp1 (w % 256)).set (dp1 + 1) (w / 256)) (dp1 + 2)
    else if c = 'd' then
      let d := ((src.getD (sp + 3) 0) * 256 * 256 * 256) + ((src.getD (sp + 2) 0) * 256 * 256) +
        ((src.getD (sp + 1) 0) * 256) + src.getD sp 0
      let dp1 := dp + 2 * (dp / 2 % 2)
      runDesc fmt src (sp + 4)
        ((((dest.set dp1 (d % 256)).set (dp1 + 1) (d / 256 % 256)).set
            (dp1 + 2) (d / (256 * 256) % 256)).set (dp1 + 3) (d / (256 * 256 * 256)))
        (dp1 + 4)
    else if c = 'W' then
      let dp1 := dp + dp % 2
      runDesc fmt src (sp + 2)
        ((dest.set dp1 (src.getD sp 0)).set (dp1 + 1) (src.getD (sp + 1) 0)) (dp1 + 2)
    else if c = 'D' then
      let dp1 := dp + 2 * (dp / 2 % 2)
      runDesc fmt src (sp + 4)
        ((((dest.set dp1 (src.getD sp 0)).set (dp1 + 1) (src.getD (sp + 1) 0)).set
            (dp1 + 2) (src.getD (sp + 2) 0)).set (dp1 + 3) (src.getD (sp + 3) 0))
        (dp1 + 4)
    else runDesc fmt src sp dest dp

/-- usbi_parse_descriptor entry: runs the field codec from the start of the
source over a zero destination image and returns the destination image plus
the number of source bytes consumed (the C return value). -/
def usbi_parse_descriptor (source : List Nat) (descriptor : List Char) (dest : List Nat) :
    List Nat × Nat :=
  let r := runDesc descriptor source 0 dest 0
  (r.1, r.2.1)

/-- The device-descriptor field format used by libusb_get_device_descriptor
(descriptor.c line 440). -/
def deviceDescFmt : List Char :=
  ['b', 'b', 'W', 'b', 'b', 'b', 'b', 'W', 'W', 'W', 'b', 'b', 'b', 'b']

/-- The field-decoding step of libusb_get_device_descriptor (lines 429-442):
run the field codec with the device format over the 18 raw bytes.  Returns
the destination image of the typed record and the bytes consumed. -/
def parse_device_descriptor (raw : List Nat) : List Nat × Nat :=
  usbi_parse_descriptor raw deviceDescFmt (List.replicate DEVICE_DESC_LENGTH 0)

/-- Follows the words of the spec (testable property 1): re-encode the typed
fields of a decoded record image back to wire bytes, walking the same format:
bytes verbatim, little-endian words and dwords emitted low byte first from
the stored native value, native-order fields copied back verbatim, skipping
the same destination alignment padding. -/
def spec_reencode : List Char → List Nat → Nat → List Nat
  | [], _, _ => []
  | c :: fmt, dest, dp =>
    if c = 'b' then dest.getD dp 0 :: spec_reencode fmt dest (dp + 1)
    else if c = 'w' then
      let dp1 := dp + dp % 2
      let w := dest.getD dp1 0 + 256 * dest.getD (dp1 + 1) 0
      w % 256 :: w / 256 % 256 :: spec_reencode fmt dest (dp1 + 2)
    else if c = 'd' then
      let dp1 := dp + 2 * (dp / 2 % 2)
      dest.getD dp1 0 :: dest.getD (dp1 + 1) 0 :: dest.getD (dp1 + 2) 0 ::
        dest.getD (dp1 + 3) 0 :: spec_reencode fmt dest (dp1 + 4)
    else if c = 'W' then
      let dp1 := dp + dp % 2
      dest.getD dp1 0 :: dest.getD (dp1 + 1) 0 :: spec_reencode fmt dest (dp1 + 2)
    else if c = 'D' then
      let dp1 := dp + 2 * (dp / 2 % 2)
      dest.getD dp1 0 :: dest.getD (dp1 + 1) 0 :: dest.getD (dp1 + 2) 0 ::
        dest.getD (dp1 + 3) 0 :: spec_reencode fmt dest (dp1 + 4)
    else spec_reencode fmt dest dp

/-- The external backend collaborator used by the retrieval entry points.
Each fetch models the corresponding usbi_backend call: the arguments are the
configuration index (where present) and the caller buffer length; the result
is the C return value `r` plus the buffer contents after the call. -/
structure Backend where
  num_configurations : Nat
  get_config_descriptor : Nat → Nat → Int × List Nat
  get_active_config_descriptor : Nat → Int × List Nat

/-- libusb_get_config_descriptor (descriptor.c lines 512-558).  The outer
`none` propagates fuel exhaustion of the parser; the inner `none` is the C
NULL return. -/
def libusb_get_config_descriptor (be : Backend) (fuel : Nat) (config_index : Nat) :
    Option (Option ConfigDescriptor) :=
  if be.num_configurations ≤ config_index then some none
  else
    let pr := be.get_config_descriptor config_index 8
    if pr.1 < 0 then some none
    else
      let wTotalLength := pr.2.getD 2 0 + 256 * pr.2.getD 3 0
      let fr := be.get_config_descriptor config_index wTotalLength
      if fr.1 < 0 then some none
      else
        match parse_configuration fuel fr.2 with
        | none => none
        | some (.error _) => some none
        | some (.ok (cfg, r)) => if r < 0 then some none else some (some cfg)

/-- libusb_get_active_config_descriptor (descriptor.c lines 455-497). -/
def libusb_get_active_config_descriptor (be : Backend) (fuel : Nat) :
    Option (Option ConfigDescriptor) :=
  let pr := be.get_active_config_descriptor 8
  if pr.1 < 0 then some none
  else
    let wTotalLength := pr.2.getD 2 0 + 256 * pr.2.getD 3 0
    let fr := be.get_active_config_descriptor wTotalLength
    if fr.1 < 0 then some none
    else
      match parse_configuration fuel fr.2 with
      | none => none
      | some (.error _) => some none
      | some (.ok (cfg, r)) => if r < 0 then some none else some (some cfg)

/-- The probe loop of libusb_get_config_descriptor_by_value (lines 583-592):
walk the configuration indices, fetching a 6-byte header and comparing byte 5
with the wanted bConfigurationValue.  The C variable `found` starts at -1 and
becomes 1 on a match; a backend failure returns NULL immediately (modelled by
the error result).  Returns the final `found` value and loop index. -/
def by_value_probe (be : Backend) (v : Nat) : Nat → Nat → Except Unit (Int × Nat)
  | i, 0 => .ok (-1, i)
  | i, count + 1 =>
    let pr := be.get_config_descriptor i 6
    if pr.1 < 0 then .error ()
    else if pr.2.getD 5 0 = v then .ok (1, i)
    else by_value_probe be v (i + 1) count

/-- libusb_get_config_descriptor_by_value (descriptor.c lines 574-598),
including the source quirk that `found` is initialised to -1 so the
`if (!found)` NULL return never fires and the no-match case instead calls
the by-index fetch with index num_configurations (a uint8_t value). -/
def libusb_get_config_descriptor_by_value (be : Backend) (fuel : Nat) (v : Nat) :
    Option (Option ConfigDescriptor) :=
  match by_value_probe be v 0 be.num_configurations with
  | .error _ => some none
  | .ok (found, i) =>
    if found = 0 then some none
    else libusb_get_config_descriptor be fuel (i % 256)

/-- The backend view used by libusb_get_string_descriptor_ascii: a call of
libusb_get_string_descriptor with a descriptor index and language id into the
255-byte stack buffer, returning the C result `r` plus the buffer contents. -/
structure StringBackend where
  get_string_descriptor : Nat → Nat → Int × List Nat

/-- The UTF-16 reduction loop of libusb_get_string_descriptor_ascii (lines
661-669): si starts at byte 2 and walks two bytes at a time while below the
declared descriptor length, stopping early when di reaches length - 1; each
step writes the low byte, or the character code of the question mark when the
high byte is nonzero. -/
def ascii_loop (tbuf : List Nat) (bLen : Nat) (length : Int) :
    List Nat → Nat → Nat → Nat × List Nat := fun data di si =>
  if si < bLen then
    if (di : Int) ≥ length - 1 then (di, data)
    else if tbuf.getD (si + 1) 0 ≠ 0 then
      ascii_loop tbuf bLen length (data.set di 63) (di + 1) (si + 2)
    else
      ascii_loop tbuf bLen length (data.set di (tbuf.getD si 0)) (di + 1) (si + 2)
  else (di, data)
termination_by _ _ si => bLen - si
decreasing_by all_goals omega

/-- libusb_get_string_descriptor_ascii (descriptor.c lines 630-673).  The
result carries the returned count `di` and the output buffer contents after
the call (the terminating zero write of line 671 included). -/
def libusb_get_string_descriptor_ascii (sb : StringBackend) (desc_index : Nat)
    (data : List Nat) (length : Int) : Except Int (Nat × List Nat) :=
  let lr := sb.get_string_descriptor 0 0
  if lr.1 < 0 then .error lr.1
  else if lr.1 < 4 then .error LIBUSB_ERROR_IO_CODE
  else
    let langid := lr.2.getD 2 0 + 256 * lr.2.getD 3 0
    let sr := sb.get_string_descriptor desc_index langid
    if sr.1 < 0 then .error sr.1
    else if sr.2.getD 1 0 ≠ LIBUSB_DT_STRING then .error LIBUSB_ERROR_IO_CODE
    else if (sr.2.getD 0 0 : Int) > sr.1 then .error LIBUSB_ERROR_IO_CODE
    else
      let r := ascii_loop sr.2 (sr.2.getD 0 0) length data 0 2
      .ok (r.1, r.2.set r.1 0)

/-!
A generator grammar for well-formed configuration streams, used to state the
universally quantified claims about exact consumption.  A shape serialises to
the byte stream the spec describes; the side conditions are the well-formedness
conditions of the spec (every declared length at least the 2-byte header and
within the buffer, counts within the architectural maxima, declared lengths
summing exactly to wTotalLength).
-/

/-- One unrecognized class- or vendor-specific sub-descriptor: a type byte and
a payload; it serialises with bLength = payload length + 2. -/
structure SubDesc where
  ty : Nat
  payload : List Nat
deriving DecidableEq, Repr

def SubDesc.bytes (s : SubDesc) : List Nat := (s.payload.length + 2) :: s.ty :: s.payload

/-- Side conditions for a sub-descriptor in a skip run: not a top-level type,
and small enough for its declared length to be a byte. -/
def SubDescOk (s : SubDesc) : Prop :=
  s.ty ≠ LIBUSB_DT_ENDPOINT ∧ s.ty ≠ LIBUSB_DT_INTERFACE ∧ s.ty ≠ LIBUSB_DT_CONFIG ∧
  s.ty ≠ LIBUSB_DT_DEVICE ∧ s.payload.length ≤ 253

instance : DecidablePred SubDescOk := fun s => by unfold SubDescOk; infer_instance

/-- Serialisation of a run of sub-descriptors. -/
def runBytes : List SubDesc → List Nat
  | [] => []
  | s :: rs => s.bytes ++ runBytes rs

/-- One endpoint block: a raw header (7 to 255 bytes, declared length equal to
its size, endpoint type) followed by a trailing run. -/
structure EpShape where
  hdr : List Nat
  extras : List SubDesc
deriving DecidableEq, Repr

def EpShape.bytes (e : EpShape) : List Nat := e.hdr ++ runBytes e.extras

def EpShapeOk (e : EpShape) : Prop :=
  e.hdr.getD 0 0 = e.hdr.length ∧ ENDPOINT_DESC_LENGTH ≤ e.hdr.length ∧
  e.hdr.length ≤ 255 ∧ e.hdr.getD 1 0 = LIBUSB_DT_ENDPOINT ∧ ∀ s ∈ e.extras, SubDescOk s

def epsBytes : List EpShape → List Nat
  | [] => []
  | e :: es => e.bytes ++ epsBytes es

/-- One alternate setting: a 9-byte interface header whose endpoint count
matches the endpoint blocks that follow its trailing run. -/
structure AltShape where
  hdr : List Nat
  extras : List SubDesc
  eps : List EpShape
deriving DecidableEq, Repr

def AltShape.bytes (a : AltShape) : List Nat := a.hdr ++ runBytes a.extras ++ epsBytes a.eps

def AltShapeOk (a : AltShape) : Prop :=
  a.hdr.length = 9 ∧ a.hdr.getD 0 0 = 9 ∧ a.hdr.getD 1 0 = LIBUSB_DT_INTERFACE ∧
  a.hdr.getD 4 0 = a.eps.length ∧ a.eps.length ≤ USB_MAXENDPOINTS ∧
  (∀ s ∈ a.extras, SubDescOk s) ∧ ∀ e ∈ a.eps, EpShapeOk e

def altsBytes : List AltShape → List Nat
  | [] => []
  | a :: l => a.bytes ++ altsBytes l

/-- One logical interface: a nonempty altsetting list where every altsetting
after the first declares a nonzero bAlternateSetting (so the loop treats it as
an alternate of the same interface). -/
def IfListOk (l : List AltShape) : Prop :=
  l ≠ [] ∧ (∀ a ∈ l, AltShapeOk a) ∧ ∀ a ∈ l.tail, a.hdr.getD 3 0 ≠ 0

def ifShapesBytes : List (List AltShape) → List Nat
  | [] => []
  | l :: ls => altsBytes l ++ ifShapesBytes ls

/-- The first altsetting of an interface declares bAlternateSetting zero (this
is what makes the previous interface stop before it). -/
def headAltZero : List AltShape → Prop
  | [] => True
  | a :: _ => a.hdr.getD 3 0 = 0

/-- A well-formed configuration stream: 9-byte header, a possible leading run
of unrecognized descriptors, then the interfaces; wTotalLength is exactly the
byte count of the whole stream. -/
structure ConfigShape where
  hdr : List Nat
  leadRun : List SubDesc
  ifaces : List (List AltShape)
deriving DecidableEq, Repr

def ConfigShape.bytes (c : ConfigShape) : List Nat :=
  c.hdr ++ runBytes c.leadRun ++ ifShapesBytes c.ifaces

def ConfigShapeOk (c : ConfigShape) : Prop :=
  c.hdr.length = 9 ∧ c.hdr.getD 0 0 = 9 ∧ c.hdr.getD 4 0 = c.ifaces.length ∧
  c.ifaces.length ≤ USB_MAXINTERFACES ∧
  c.hdr.getD 2 0 + 256 * c.hdr.getD 3 0 = c.bytes.length ∧
  (∀ s ∈ c.leadRun, SubDescOk s) ∧ (c.ifaces = [] → c.leadRun = []) ∧
  (∀ l ∈ c.ifaces, IfListOk l) ∧ ∀ l ∈ c.ifaces.tail, headAltZero l

/-- The consistency condition of the spec for an extra blob: never absent with
a nonzero recorded length, never present with a zero recorded length (and the
recorded length is the length of the blob). -/
def blobOkP : Option (List Nat) → Nat → Prop
  | none, n => n = 0
  | some l, n => l.length = n ∧ n ≠ 0

instance : ∀ o n, Decidable (blobOkP o n) := fun o n => by
  cases o <;> simp only [blobOkP] <;> infer_instance

/-- The extra blobs of every node of a parsed configuration tree are
consistent with their recorded lengths. -/
def nodeBlobsOk (cfg : ConfigDescriptor) : Prop :=
  blobOkP cfg.extra cfg.extra_length ∧
  ∀ ifs, cfg.interface = some ifs → ∀ i ∈ ifs, ∀ d ∈ i.altsetting,
    blobOkP d.extra d.extra_length ∧
    ∀ eps, d.endpoint = some eps → ∀ ep ∈ eps, blobOkP ep.extra ep.extra_length

/-! Helper lemmas about the byte-buffer primitives. -/

lemma padTake_length (l : List Nat) (n : Nat) : (padTake l n).length = n := by
  induction n generalizing l with
  | zero => rfl
  | succ n ih => simp [padTake, ih]

lemma padTake_append (l1 l2 : List Nat) : padTake (l1 ++ l2) l1.length = l1 := by
  induction l1 with
  | nil => rfl
  | cons a t ih => simp [padTake, ih]

/-- A descriptor type that terminates a skip run. -/
def isTopLevelType (t : Nat) : Prop :=
  t = LIBUSB_DT_ENDPOINT ∨ t = LIBUSB_DT_INTERFACE ∨ t = LIBUSB_DT_CONFIG ∨ t = LIBUSB_DT_DEVICE

/-- The bytes following a skip run make the scan stop cleanly: either fewer
than two bytes remain, or a properly sized top-level descriptor starts. -/
def stopperAt (rest : List Nat) : Prop :=
  rest.length < 2 ∨
    (2 ≤ rest.getD 0 0 ∧ rest.getD 0 0 ≤ rest.length ∧ isTopLevelType (rest.getD 1 0))

lemma skipRun_spec (co : Bool) (rs : List SubDesc) (rest : List Nat)
    (hok : ∀ s ∈ rs, SubDescOk s) (hstop : stopperAt rest) :
    skipRun co (runBytes rs ++ rest) ((runBytes rs ++ rest).length : Int) =
      some ((runBytes rs).length, (rest.length : Int)) := by
  induction rs with
  | nil =>
    simp only [runBytes, List.nil_append, List.length_nil]
    rcases hstop with h | ⟨h1, h2, h3⟩
    · rw [skipRun, dif_neg (by exact_mod_cast by omega)]
    · rw [skipRun, dif_pos (by exact_mod_cast by omega), dif_neg (by omega),
        if_neg (by rintro ⟨-, hlt⟩; omega), if_pos (by simpa [isTopLevelType] using h3)]
  | cons s rs ih =>
    obtain ⟨ht5, ht4, ht2, ht1, hp⟩ := hok s (by simp)
    have hok2 : ∀ x ∈ rs, SubDescOk x := fun x hx => hok x (by simp [hx])
    have hlen : (runBytes (s :: rs)).length =
        s.payload.length + 2 + (runBytes rs).length := by
      simp [runBytes, SubDesc.bytes]; omega
    simp only [runBytes, SubDesc.bytes, List.cons_append, List.append_assoc]
    rw [skipRun]
    rw [dif_pos (by simp; exact_mod_cast by omega)]
    simp only [List.getD_cons_zero, List.getD_cons_succ]
    rw [dif_neg (by omega)]
    rw [if_neg (by
      rintro ⟨-, hlt⟩
      simp [List.length_append] at hlt
      omega)]
    rw [if_neg (by simp only [not_or]; exact ⟨ht5, ht4, ht2, ht1⟩)]
    have hdrop : (s.payload ++ (runBytes rs ++ rest)).drop s.payload.length =
        runBytes rs ++ rest := List.drop_left _ _
    simp only [List.drop_succ_cons]
    rw [hdrop]
    have hsz : (((s.payload.length + 2) :: s.ty :: (s.payload ++ (runBytes rs ++ rest))).length : Int)
        - (s.payload.length + 2 : Nat) = ((runBytes rs ++ rest).length : Int) := by
      simp [List.length_cons, List.length_append]
      push_cast
      omega
    rw [hsz, ih hok2]
    simp only [Option.some.injEq, Prod.mk.injEq]
    constructor
    · simp [runBytes, SubDesc.bytes]; omega
    · trivial

lemma parse_endpoint_spec (e : EpShape) (rest : List Nat) (hok : EpShapeOk e)
    (hstop : stopperAt rest) :
    ∃ ep, parse_endpoint (e.bytes ++ rest) ((e.bytes ++ rest).length : Int) =
      .ok (ep, e.bytes.length) := by
  obtain ⟨h0, h7, h255, hty, hex⟩ := hok
  have hbuf : e.bytes ++ rest = e.hdr ++ (runBytes e.extras ++ rest) := by
    simp [EpShape.bytes]
  rw [hbuf]
  have hg0 : (e.hdr ++ (runBytes e.extras ++ rest)).getD 0 0 = e.hdr.length := by
    rw [List.getD_append _ _ _ _ (by simp [ENDPOINT_DESC_LENGTH] at h7; omega)]; exact h0
  have hg1 : (e.hdr ++ (runBytes e.extras ++ rest)).getD 1 0 = LIBUSB_DT_ENDPOINT := by
    rw [List.getD_append _ _ _ _ (by simp [ENDPOINT_DESC_LENGTH] at h7; omega)]; exact hty
  have hblen : e.bytes.length = e.hdr.length + (runBytes e.extras).length := by
    simp [EpShape.bytes]
  simp only [parse_endpoint, hg0, hg1]
  rw [if_neg (by simp only [List.length_append]; push_cast; omega)]
  rw [if_neg (by simp)]
  rw [List.drop_left]
  have hsz : ((e.hdr ++ (runBytes e.extras ++ rest)).length : Int) - (e.hdr.length : Nat) =
      ((runBytes e.extras ++ rest).length : Int) := by
    simp only [List.length_append]; push_cast; omega
  rw [hsz, skipRun_spec false e.extras rest hex hstop]
  dsimp only
  by_cases hL : (runBytes e.extras).length = 0
  · rw [if_pos hL]
    exact ⟨_, by rw [show e.bytes.length = e.hdr.length by omega]⟩
  · rw [if_neg hL]
    exact ⟨_, by rw [hblen]⟩

lemma stopperAt_nil : stopperAt [] := by
  left; simp

lemma stopperAt_epsBytes (es : List EpShape) (rest : List Nat)
    (hok : ∀ e ∈ es, EpShapeOk e) (hstop : stopperAt rest) :
    stopperAt (epsBytes es ++ rest) := by
  cases es with
  | nil => simpa [epsBytes] using hstop
  | cons e es =>
    obtain ⟨h0, h7, h255, hty, hex⟩ := hok e (by simp)
    have h72 : 2 ≤ e.hdr.length := by
      simp [ENDPOINT_DESC_LENGTH] at h7; omega
    right
    have hb : epsBytes (e :: es) ++ rest = e.hdr ++ (runBytes e.extras ++ (epsBytes es ++ rest)) := by
      simp [epsBytes, EpShape.bytes]
    rw [hb]
    rw [List.getD_append _ _ _ _ (by omega), List.getD_append _ _ _ _ (by omega)]
    refine ⟨by omega, by rw [h0]; simp [List.length_append], ?_⟩
    rw [hty]; left; rfl

lemma stopperAt_altsBytes (l : List AltShape) (rest : List Nat)
    (hok : ∀ a ∈ l, AltShapeOk a) (hstop : stopperAt rest) :
    stopperAt (altsBytes l ++ rest) := by
  cases l with
  | nil => simpa [altsBytes] using hstop
  | cons a l =>
    obtain ⟨h9, hg0, hg1, -, -, -, -⟩ := hok a (by simp)
    right
    have hb : altsBytes (a :: l) ++ rest =
        a.hdr ++ (runBytes a.extras ++ (epsBytes a.eps ++ (altsBytes l ++ rest))) := by
      simp [altsBytes, AltShape.bytes]
    rw [hb]
    rw [List.getD_append _ _ _ _ (by omega), List.getD_append _ _ _ _ (by omega)]
    refine ⟨by omega, by rw [hg0]; simp [List.length_append]; omega, ?_⟩
    rw [hg1]; right; left; rfl

/-- The shape of the bytes that follow one whole logical interface inside a
well-formed configuration stream: either nothing, or the next interface,
which starts with a 9-byte interface header with alternate setting zero. -/
def ifaceRestP (rest : List Nat) : Prop :=
  rest = [] ∨ (9 ≤ rest.length ∧ rest.getD 0 0 = 9 ∧
    rest.getD 1 0 = LIBUSB_DT_INTERFACE ∧ rest.getD 3 0 = 0)

lemma stopperAt_of_ifaceRestP (rest : List Nat) (h : ifaceRestP rest) : stopperAt rest := by
  rcases h with rfl | ⟨h1, h2, h3, -⟩
  · exact stopperAt_nil
  · right
    exact ⟨by omega, by omega, by rw [h3]; right; left; rfl⟩

lemma parse_endpoints_spec : ∀ (es : List EpShape) (rest : List Nat),
    (∀ e ∈ es, EpShapeOk e) → stopperAt rest →
    ∃ eps, parse_endpoints (epsBytes es ++ rest) ((epsBytes es ++ rest).length : Int) es.length =
      .ok (eps, (epsBytes es).length) := by
  intro es
  induction es with
  | nil => exact fun rest _ _ => ⟨[], rfl⟩
  | cons e es ih =>
    intro rest hok hstop
    obtain ⟨h0, h7, h255, hty, hex⟩ := hok e (by simp)
    have hok2 : ∀ x ∈ es, EpShapeOk x := fun x hx => hok x (by simp [hx])
    have hb : epsBytes (e :: es) ++ rest = e.bytes ++ (epsBytes es ++ rest) := by
      simp [epsBytes]
    rw [hb]
    have hg0 : (e.bytes ++ (epsBytes es ++ rest)).getD 0 0 = e.hdr.length := by
      rw [show e.bytes ++ (epsBytes es ++ rest) =
            e.hdr ++ (runBytes e.extras ++ (epsBytes es ++ rest)) by simp [EpShape.bytes]]
      rw [List.getD_append _ _ _ _ (by simp [ENDPOINT_DESC_LENGTH] at h7; omega)]
      exact h0
    have hhh : e.hdr.length ≤ e.bytes.length := by
      simp [EpShape.bytes]
    simp only [parse_endpoints, hg0]
    rw [if_neg (by simp only [List.length_append]; push_cast; omega)]
    obtain ⟨ep, hep⟩ := parse_endpoint_spec e (epsBytes es ++ rest) ⟨h0, h7, h255, hty, hex⟩
      (stopperAt_epsBytes es rest hok2 hstop)
    rw [hep]
    dsimp only
    rw [List.drop_left]
    have hsz : ((e.bytes ++ (epsBytes es ++ rest)).length : Int) - (e.bytes.length : Nat) =
        ((epsBytes es ++ rest).length : Int) := by
      simp only [List.length_append]; push_cast; omega
    rw [hsz]
    obtain ⟨eps, heps⟩ := ih rest hok2 hstop
    rw [heps]
    dsimp only
    exact ⟨ep :: eps, by simp [epsBytes]⟩

lemma midcheck_false (eps : List EpShape) (alts : List AltShape) (rest : List Nat)
    (hok : ∀ e ∈ eps, EpShapeOk e) (hok2 : ∀ a ∈ alts, AltShapeOk a) (hrest : ifaceRestP rest) :
    ¬ (2 ≤ ((epsBytes eps ++ (altsBytes alts ++ rest)).length : Int) ∧
       ((epsBytes eps ++ (altsBytes alts ++ rest)).getD 1 0 = LIBUSB_DT_CONFIG ∨
        (epsBytes eps ++ (altsBytes alts ++ rest)).getD 1 0 = LIBUSB_DT_DEVICE)) := by
  rintro ⟨hsz, hty⟩
  cases eps with
  | cons e es =>
    obtain ⟨-, h7, -, hety, -⟩ := hok e (by simp)
    rw [show epsBytes (e :: es) ++ (altsBytes alts ++ rest) =
          e.hdr ++ (runBytes e.extras ++ (epsBytes es ++ (altsBytes alts ++ rest))) by
        simp [epsBytes, EpShape.bytes]] at hty
    rw [List.getD_append _ _ _ _ (by simp [ENDPOINT_DESC_LENGTH] at h7; omega), hety] at hty
    simp [LIBUSB_DT_ENDPOINT, LIBUSB_DT_CONFIG, LIBUSB_DT_DEVICE] at hty
  | nil =>
    cases alts with
    | cons a as =>
      obtain ⟨h9, -, haty, -, -, -, -⟩ := hok2 a (by simp)
      rw [show epsBytes [] ++ (altsBytes (a :: as) ++ rest) =
            a.hdr ++ (runBytes a.extras ++ (epsBytes a.eps ++ (altsBytes as ++ rest))) by
          simp [epsBytes, altsBytes, AltShape.bytes]] at hty
      rw [List.getD_append _ _ _ _ (by omega), haty] at hty
      simp [LIBUSB_DT_INTERFACE, LIBUSB_DT_CONFIG, LIBUSB_DT_DEVICE] at hty
    | nil =>
      rcases hrest with hrn | ⟨-, -, h1, -⟩
      · rw [hrn] at hsz
        norm_num [epsBytes, altsBytes] at hsz
      · rw [show epsBytes [] ++ (altsBytes [] ++ rest) = rest by simp [epsBytes, altsBytes]] at hty
        rw [h1] at hty
        simp [LIBUSB_DT_INTERFACE, LIBUSB_DT_CONFIG, LIBUSB_DT_DEVICE] at hty

lemma iface_continue_cond_iff (buf : List Nat) (size : Int) :
    iface_continue_cond buf size = true ↔
      ((LIBUSB_DT_INTERFACE_SIZE : Int) ≤ size ∧ buf.getD 1 0 = LIBUSB_DT_INTERFACE ∧
        buf.getD 3 0 ≠ 0) := by
  simp only [iface_continue_cond, Bool.not_eq_true', Bool.or_eq_false_iff,
    decide_eq_false_iff_not, not_lt, ne_eq, Decidable.not_not]
  tauto

lemma parse_interface_loop_spec : ∀ (alts : List AltShape) (fuel : Nat) (rest : List Nat),
    alts ≠ [] → (∀ a ∈ alts, AltShapeOk a) → (∀ a ∈ alts.tail, a.hdr.getD 3 0 ≠ 0) →
    ifaceRestP rest → alts.length ≤ fuel →
    ∃ ifds, parse_interface_loop fuel (altsBytes alts ++ rest)
        ((altsBytes alts ++ rest).length : Int) =
      some (.ok (ifds, (altsBytes alts).length)) ∧ ifds.length = alts.length := by
  intro alts
  induction alts with
  | nil => intro fuel rest h; exact absurd rfl h
  | cons a alts ih =>
    intro fuel rest _ hok htail hrest hfuel
    obtain ⟨h9, hg0hdr, hg1hdr, hg4hdr, hmax, haex, haeps⟩ := hok a (by simp)
    have halts : ∀ x ∈ alts, AltShapeOk x := fun x hx => hok x (by simp [hx])
    cases fuel with
    | zero => simp at hfuel
    | succ f =>
      have hbytes : altsBytes (a :: alts) ++ rest =
          a.hdr ++ (runBytes a.extras ++ (epsBytes a.eps ++ (altsBytes alts ++ rest))) := by
        simp [altsBytes, AltShape.bytes]
      rw [hbytes]
      have hg0 : (a.hdr ++ (runBytes a.extras ++
          (epsBytes a.eps ++ (altsBytes alts ++ rest)))).getD 0 0 = 9 := by
        rw [List.getD_append _ _ _ _ (by omega)]; exact hg0hdr
      have hg4 : (a.hdr ++ (runBytes a.extras ++
          (epsBytes a.eps ++ (altsBytes alts ++ rest)))).getD 4 0 = a.eps.length := by
        rw [List.getD_append _ _ _ _ (by omega)]; rw [hg4hdr]
      simp only [parse_interface_loop, hg0, hg4]
      rw [if_neg (by
        simp only [List.length_append, INTERFACE_DESC_LENGTH]; push_cast; omega)]
      have hdrop1 : (a.hdr ++ (runBytes a.extras ++
          (epsBytes a.eps ++ (altsBytes alts ++ rest)))).drop 9 =
          runBytes a.extras ++ (epsBytes a.eps ++ (altsBytes alts ++ rest)) := by
        rw [← h9]; exact List.drop_left _ _
      rw [hdrop1]
      have hsz1 : ((a.hdr ++ (runBytes a.extras ++
          (epsBytes a.eps ++ (altsBytes alts ++ rest)))).length : Int) - ((9 : Nat) : Int) =
          ((runBytes a.extras ++ (epsBytes a.eps ++ (altsBytes alts ++ rest))).length : Int) := by
        simp only [List.length_append]; push_cast; omega
      rw [hsz1]
      have hstop3 : stopperAt (altsBytes alts ++ rest) :=
        stopperAt_altsBytes alts rest halts (stopperAt_of_ifaceRestP rest hrest)
      have hstop2 : stopperAt (epsBytes a.eps ++ (altsBytes alts ++ rest)) :=
        stopperAt_epsBytes a.eps _ haeps hstop3
      rw [skipRun_spec false a.extras _ haex hstop2]
      dsimp only
      have hdrop2 : (runBytes a.extras ++
          (epsBytes a.eps ++ (altsBytes alts ++ rest))).drop (runBytes a.extras).length =
          epsBytes a.eps ++ (altsBytes alts ++ rest) := List.drop_left _ _
      rw [hdrop2]
      rw [if_neg (midcheck_false a.eps alts rest haeps halts hrest)]
      rw [if_neg (by simp only [not_lt]; exact hmax)]
      have hEP : (if a.eps.length = 0 then Except.ok ([], 0)
          else parse_endpoints (epsBytes a.eps ++ (altsBytes alts ++ rest))
            ((epsBytes a.eps ++ (altsBytes alts ++ rest)).length : Int) a.eps.length) =
          (Except.ok ((if a.eps.length = 0 then ([] : List EndpointDescriptor)
              else Classical.choose (parse_endpoints_spec a.eps (altsBytes alts ++ rest)
                haeps hstop3)), (epsBytes a.eps).length) :
            Except Int (List EndpointDescriptor × Nat)) := by
        by_cases hE : a.eps.length = 0
        · rw [List.length_eq_zero] at hE
          simp [hE, epsBytes]
        · rw [if_neg hE, if_neg hE]
          exact Classical.choose_spec (parse_endpoints_spec a.eps (altsBytes alts ++ rest)
            haeps hstop3)
      rw [hEP]
      dsimp only
      have hdrop3 : (epsBytes a.eps ++ (altsBytes alts ++ rest)).drop (epsBytes a.eps).length =
          altsBytes alts ++ rest := List.drop_left _ _
      rw [hdrop3]
      have hsz3 : ((epsBytes a.eps ++ (altsBytes alts ++ rest)).length : Int) -
          ((epsBytes a.eps).length : Nat) = ((altsBytes alts ++ rest).length : Int) := by
        simp only [List.length_append]; push_cast; omega
      rw [hsz3]
      have htotal : (altsBytes (a :: alts)).length =
          9 + (runBytes a.extras).length + (epsBytes a.eps).length + (altsBytes alts).length := by
        simp [altsBytes, AltShape.bytes, List.length_append]
        omega
      cases alts with
      | nil =>
        have hcond : ¬ (iface_continue_cond (altsBytes [] ++ rest)
            ((altsBytes [] ++ rest).length : Int) = true) := by
          rw [iface_continue_cond_iff]
          rcases hrest with hrn | ⟨-, -, -, h3⟩
          · rw [hrn]
            norm_num [altsBytes, LIBUSB_DT_INTERFACE_SIZE]
          · rintro ⟨-, -, hne⟩
            rw [show altsBytes [] ++ rest = rest by simp [altsBytes]] at hne
            exact hne h3
        rw [if_neg hcond]
        rw [show (altsBytes [a]).length = 9 + (runBytes a.extras).length +
            (epsBytes a.eps).length from by simpa [altsBytes] using htotal]
        exact ⟨_, rfl, by simp⟩
      | cons a2 alts2 =>
        obtain ⟨h9b, hg0b, hg1b, -, -, -, -⟩ := hok a2 (by simp)
        have h3b : a2.hdr.getD 3 0 ≠ 0 := htail a2 (by simp)
        have hcond : iface_continue_cond (altsBytes (a2 :: alts2) ++ rest)
            ((altsBytes (a2 :: alts2) ++ rest).length : Int) = true := by
          rw [iface_continue_cond_iff]
          have hb2 : altsBytes (a2 :: alts2) ++ rest =
              a2.hdr ++ (runBytes a2.extras ++ (epsBytes a2.eps ++ (altsBytes alts2 ++ rest))) := by
            simp [altsBytes, AltShape.bytes]
          rw [hb2]
          refine ⟨?_, ?_, ?_⟩
          · simp only [List.length_append, LIBUSB_DT_INTERFACE_SIZE]; push_cast; omega
          · rw [List.getD_append _ _ _ _ (by omega)]; exact hg1b
          · rw [List.getD_append _ _ _ _ (by omega)]; exact h3b
        rw [if_pos hcond]
        obtain ⟨ifds, hif, hlen⟩ := ih f rest (by simp) halts
          (fun x hx => htail x (List.mem_cons_of_mem _ hx))
          hrest (by simp at hfuel ⊢; omega)
        rw [hif]
        dsimp only
        rw [show (altsBytes (a :: a2 :: alts2)).length =
            9 + (runBytes a.extras).length + (epsBytes a.eps).length +
              (altsBytes (a2 :: alts2)).length from htotal]
        exact ⟨_, rfl, by simp [hlen]⟩

lemma stopperAt_ifShapesBytes : ∀ (ls : List (List AltShape)),
    (∀ l ∈ ls, IfListOk l) → stopperAt (ifShapesBytes ls)
  | [], _ => stopperAt_nil
  | l :: ls, hok => by
    have hrest := stopperAt_ifShapesBytes ls (fun x hx => hok x (by simp [hx]))
    rw [show ifShapesBytes (l :: ls) = altsBytes l ++ ifShapesBytes ls from rfl]
    exact stopperAt_altsBytes l _ ((hok l (by simp)).2.1) hrest

lemma ifaceRestP_ifShapesBytes (ls : List (List AltShape)) (hok : ∀ l ∈ ls, IfListOk l)
    (hhz : ∀ l ∈ ls, headAltZero l) : ifaceRestP (ifShapesBytes ls) := by
  cases ls with
  | nil => left; rfl
  | cons l ls2 =>
    obtain ⟨hne, hall, -⟩ := hok l (by simp)
    cases l with
    | nil => exact absurd rfl hne
    | cons a as =>
      obtain ⟨h9, hg0, hg1, -, -, -, -⟩ := hall a (by simp)
      have hz : a.hdr.getD 3 0 = 0 := hhz (a :: as) (by simp)
      right
      have hb : ifShapesBytes ((a :: as) :: ls2) =
          a.hdr ++ (runBytes a.extras ++ (epsBytes a.eps ++ (altsBytes as ++ ifShapesBytes ls2))) := by
        simp [ifShapesBytes, altsBytes, AltShape.bytes]
      rw [hb]
      refine ⟨by simp [List.length_append]; omega, ?_, ?_, ?_⟩
      · rw [List.getD_append _ _ _ _ (by omega)]; exact hg0
      · rw [List.getD_append _ _ _ _ (by omega)]; exact hg1
      · rw [List.getD_append _ _ _ _ (by omega)]; exact hz

lemma parse_config_interfaces_spec : ∀ (ls : List (List AltShape)) (fuel : Nat)
    (ex : Option (List Nat)) (exl : Nat),
    (∀ l ∈ ls, IfListOk l) → (∀ l ∈ ls.tail, headAltZero l) →
    (∀ l ∈ ls, List.length l ≤ fuel) →
    ∃ ifs, parse_config_interfaces fuel ls.length (ifShapesBytes ls)
        ((ifShapesBytes ls).length : Int) ex exl = some (.ok (ifs, ex, exl, 0)) ∧
      ifs.length = ls.length := by
  intro ls
  induction ls with
  | nil =>
    intro fuel ex exl _ _ _
    exact ⟨[], by norm_num [parse_config_interfaces, ifShapesBytes], rfl⟩
  | cons l ls2 ih =>
    intro fuel ex exl hok hhz hfuel
    obtain ⟨hne, hall, htail⟩ := hok l (by simp)
    have hok2 : ∀ x ∈ ls2, IfListOk x := fun x hx => hok x (by simp [hx])
    have hhz2 : ∀ x ∈ ls2, headAltZero x := fun x hx => hhz x (by simp [hx])
    have hstop : stopperAt (ifShapesBytes (l :: ls2)) :=
      stopperAt_ifShapesBytes _ hok
    simp only [List.length_cons, parse_config_interfaces]
    have hskip := skipRun_spec true [] (ifShapesBytes (l :: ls2)) (by simp) hstop
    simp only [runBytes, List.nil_append, List.length_nil] at hskip
    rw [hskip]
    dsimp only
    rw [if_neg (by simp), if_neg (by simp), List.drop_zero]
    have hifb : ifShapesBytes (l :: ls2) = altsBytes l ++ ifShapesBytes ls2 := rfl
    obtain ⟨ifds, hloop, hlen⟩ := parse_interface_loop_spec l fuel (ifShapesBytes ls2)
      hne hall htail (ifaceRestP_ifShapesBytes ls2 hok2 hhz2) (hfuel l (by simp))
    rw [hifb]
    simp only [parse_interface]
    rw [hloop]
    dsimp only
    rw [List.drop_left]
    have hsz : ((altsBytes l ++ ifShapesBytes ls2).length : Int) -
        ((altsBytes l).length : Nat) = ((ifShapesBytes ls2).length : Int) := by
      simp only [List.length_append]; push_cast; omega
    rw [hsz]
    obtain ⟨ifs, hrec, hlen2⟩ := ih fuel ex exl hok2 (fun x hx =>
      hhz x (List.mem_of_mem_tail hx))
      (fun x hx => hfuel x (by simp [hx]))
    rw [hrec]
    dsimp only
    exact ⟨_, rfl, by simp [hlen2]⟩

lemma parse_config_interfaces_lead (l0 : List AltShape) (ls2 : List (List AltShape))
    (R : List SubDesc) (fuel : Nat)
    (hR : ∀ s ∈ R, SubDescOk s)
    (hok : ∀ l ∈ l0 :: ls2, IfListOk l) (hhz : ∀ l ∈ ls2, headAltZero l)
    (hfuel : ∀ l ∈ l0 :: ls2, List.length l ≤ fuel) :
    ∃ ifs, parse_config_interfaces fuel (l0 :: ls2).length
        (runBytes R ++ ifShapesBytes (l0 :: ls2))
        ((runBytes R ++ ifShapesBytes (l0 :: ls2)).length : Int) none 0 =
      some (.ok (ifs,
        (if (runBytes R).length = 0 then none else some (runBytes R)),
        (runBytes R).length, 0)) ∧ ifs.length = (l0 :: ls2).length := by
  obtain ⟨hne, hall, htail⟩ := hok l0 (by simp)
  have hok2 : ∀ x ∈ ls2, IfListOk x := fun x hx => hok x (by simp [hx])
  have hstop : stopperAt (ifShapesBytes (l0 :: ls2)) := stopperAt_ifShapesBytes _ hok
  simp only [List.length_cons, parse_config_interfaces]
  rw [skipRun_spec true R (ifShapesBytes (l0 :: ls2)) hR hstop]
  dsimp only
  rw [List.drop_left]
  obtain ⟨ifds, hloop, hlen⟩ := parse_interface_loop_spec l0 fuel (ifShapesBytes ls2)
    hne hall htail (ifaceRestP_ifShapesBytes ls2 hok2 hhz) (hfuel l0 (by simp))
  by_cases hRL : (runBytes R).length = 0
  · rw [if_neg (by simp [hRL]), if_neg (by simp [hRL]), if_pos hRL, hRL]
    rw [show ifShapesBytes (l0 :: ls2) = altsBytes l0 ++ ifShapesBytes ls2 from rfl]
    simp only [parse_interface]
    rw [hloop]
    dsimp only
    rw [List.drop_left]
    have hsz : ((altsBytes l0 ++ ifShapesBytes ls2).length : Int) -
        ((altsBytes l0).length : Nat) = ((ifShapesBytes ls2).length : Int) := by
      simp only [List.length_append]; push_cast; omega
    rw [hsz]
    obtain ⟨ifs, hrec, hlen2⟩ := parse_config_interfaces_spec ls2 fuel none 0 hok2
      (fun x hx => hhz x (List.mem_of_mem_tail hx)) (fun x hx => hfuel x (by simp [hx]))
    rw [hrec]
    dsimp only
    exact ⟨_, rfl, by simp [hlen2]⟩
  · rw [if_pos ⟨hRL, trivial⟩, if_pos ⟨hRL, trivial⟩, padTake_append, if_neg hRL]
    rw [show ifShapesBytes (l0 :: ls2) = altsBytes l0 ++ ifShapesBytes ls2 from rfl]
    simp only [parse_interface]
    rw [hloop]
    dsimp only
    rw [List.drop_left]
    have hsz : ((altsBytes l0 ++ ifShapesBytes ls2).length : Int) -
        ((altsBytes l0).length : Nat) = ((ifShapesBytes ls2).length : Int) := by
      simp only [List.length_append]; push_cast; omega
    rw [hsz]
    obtain ⟨ifs, hrec, hlen2⟩ := parse_config_interfaces_spec ls2 fuel
      (some (runBytes R)) (runBytes R).length hok2
      (fun x hx => hhz x (List.mem_of_mem_tail hx)) (fun x hx => hfuel x (by simp [hx]))
    rw [hrec]
    dsimp only
    exact ⟨_, rfl, by simp [hlen2]⟩

lemma parse_configuration_shape (c : ConfigShape) (fuel : Nat) (hok : ConfigShapeOk c)
    (hfuel : ∀ l ∈ c.ifaces, List.length l ≤ fuel) :
    ∃ cfg, parse_configuration fuel c.bytes = some (.ok (cfg, 0)) ∧
      cfg.extra = (if (runBytes c.leadRun).length = 0 then none
        else some (runBytes c.leadRun)) ∧
      cfg.extra_length = (runBytes c.leadRun).length ∧
      cfg.bNumInterfaces = c.ifaces.length ∧
      ∃ ifs, cfg.interface = some ifs ∧ ifs.length = c.ifaces.length := by
  obtain ⟨h9, hg0h, hg4h, hmax, hwtl, hRok, hEmpty, hifok, hhz⟩ := hok
  have hbytes : c.bytes = c.hdr ++ (runBytes c.leadRun ++ ifShapesBytes c.ifaces) := by
    simp [ConfigShape.bytes]
  have hg0 : c.bytes.getD 0 0 = 9 := by
    rw [hbytes, List.getD_append _ _ _ _ (by omega)]; exact hg0h
  have hg4 : c.bytes.getD 4 0 = c.ifaces.length := by
    rw [hbytes, List.getD_append _ _ _ _ (by omega)]; exact hg4h
  have hg23 : c.bytes.getD 2 0 + 256 * c.bytes.getD 3 0 = c.bytes.length := by
    rw [hbytes, List.getD_append _ _ _ _ (by omega), List.getD_append _ _ _ _ (by omega)]
    rw [← hbytes]
    exact hwtl
  simp only [parse_configuration, hg0, hg4, hg23]
  rw [if_neg (by simp only [not_lt]; exact hmax)]
  have hdrop : c.bytes.drop 9 = runBytes c.leadRun ++ ifShapesBytes c.ifaces := by
    rw [hbytes, ← h9]; exact List.drop_left _ _
  rw [hdrop]
  have hsz : ((c.bytes.length : Nat) : Int) - ((9 : Nat) : Int) =
      ((runBytes c.leadRun ++ ifShapesBytes c.ifaces).length : Int) := by
    rw [hbytes]
    simp only [List.length_append]
    push_cast
    omega
  rw [hsz]
  cases hif : c.ifaces with
  | nil =>
    have hlr : c.leadRun = [] := hEmpty hif
    rw [hlr]
    simp only [runBytes, ifShapesBytes, List.nil_append, List.append_nil, List.length_nil,
      Nat.cast_zero, parse_config_interfaces]
    exact ⟨_, rfl, by norm_num, by norm_num, rfl, ⟨[], rfl, rfl⟩⟩
  | cons l0 ls2 =>
    obtain ⟨ifs, hrec, hlen⟩ := parse_config_interfaces_lead l0 ls2 c.leadRun fuel hRok
      (hif ▸ hifok) (by
        intro x hx
        have : x ∈ c.ifaces.tail := by rw [hif]; simpa using hx
        exact hhz x this)
      (by intro x hx; exact hfuel x (by rw [hif]; exact hx))
    rw [hrec]
    dsimp only
    exact ⟨_, rfl, rfl, rfl, rfl, ⟨ifs, rfl, hlen⟩⟩

lemma parse_endpoint_blob (buf : List Nat) (size : Int) (ep : EndpointDescriptor) (r : Nat)
    (h : parse_endpoint buf size = .ok (ep, r)) : blobOkP ep.extra ep.extra_length := by
  simp only [parse_endpoint] at h
  split at h
  · simp at h
  · split at h
    · simp only [Except.ok.injEq, Prod.mk.injEq] at h
      obtain ⟨rfl, -⟩ := h
      simp [blobOkP]
    · split at h
      · simp at h
      · rename_i len snd
        split at h
        · simp only [Except.ok.injEq, Prod.mk.injEq] at h
          obtain ⟨rfl, -⟩ := h
          split
          · simp [blobOkP]
          · split
            · simp [blobOkP]
            · simp [blobOkP]
        · rename_i hlen
          simp only [Except.ok.injEq, Prod.mk.injEq] at h
          obtain ⟨rfl, -⟩ := h
          simp [blobOkP, padTake_length, hlen]

lemma parse_endpoints_blob : ∀ (n : Nat) (buf : List Nat) (size : Int)
    (eps : List EndpointDescriptor) (r : Nat),
    parse_endpoints buf size n = .ok (eps, r) →
    ∀ ep ∈ eps, blobOkP ep.extra ep.extra_length := by
  intro n
  induction n with
  | zero =>
    intro buf size eps r h ep hep
    simp only [parse_endpoints, Except.ok.injEq, Prod.mk.injEq] at h
    obtain ⟨rfl, -⟩ := h
    simp at hep
  | succ n ih =>
    intro buf size eps r h ep hep
    simp only [parse_endpoints] at h
    split at h
    · simp at h
    · split at h
      · simp at h
      · rename_i ep1 r1 heq1
        split at h
        · simp at h
        · rename_i eps2 c heq2
          simp only [Except.ok.injEq, Prod.mk.injEq] at h
          obtain ⟨rfl, -⟩ := h
          rcases List.mem_cons.mp hep with rfl | hmem
          · exact parse_endpoint_blob _ _ _ _ heq1
          · exact ih _ _ _ _ heq2 ep hmem

lemma parse_interface_loop_blob : ∀ (fuel : Nat) (buf : List Nat) (size : Int)
    (alts : List InterfaceDescriptor) (r : Nat),
    parse_interface_loop fuel buf size = some (.ok (alts, r)) →
    ∀ d ∈ alts, blobOkP d.extra d.extra_length ∧
      ∀ eps, d.endpoint = some eps → ∀ ep ∈ eps, blobOkP ep.extra ep.extra_length := by
  intro fuel
  induction fuel with
  | zero =>
    intro buf size alts r h
    simp [parse_interface_loop] at h
  | succ fuel ih =>
    intro buf size alts r h d hd
    simp only [parse_interface_loop] at h
    split at h
    · simp only [Option.some.injEq, Except.ok.injEq, Prod.mk.injEq] at h
      obtain ⟨rfl, -⟩ := h
      simp at hd
    · split at h
      · simp at h
      · rename_i len size2 heqskip
        split at h
        · simp only [Option.some.injEq, Except.ok.injEq, Prod.mk.injEq] at h
          obtain ⟨rfl, -⟩ := h
          rcases List.mem_singleton.mp hd with rfl
          constructor
          · by_cases hlz : len = 0
            · simp [blobOkP, hlz]
            · simp [blobOkP, padTake_length, hlz]
          · intro eps heps
            simp at heps
        · split at h
          · simp at h
          · split at h
            · simp at h
            · rename_i eps c heqeps
              split at h
              · split at h
                · simp at h
                · simp at h
                · rename_i rest c2 heqrec
                  simp only [Option.some.injEq, Except.ok.injEq, Prod.mk.injEq] at h
                  obtain ⟨rfl, -⟩ := h
                  rcases List.mem_cons.mp hd with rfl | hmem
                  · constructor
                    · by_cases hlz : len = 0
                      · simp [blobOkP, hlz]
                      · simp [blobOkP, padTake_length, hlz]
                    · intro eps2 heps2
                      split at heps2
                      · simp at heps2
                      · rename_i hnz
                        simp only [Option.some.injEq] at heps2
                        subst heps2
                        rw [if_neg hnz] at heqeps
                        exact parse_endpoints_blob _ _ _ _ _ heqeps
                  · exact ih _ _ _ _ heqrec d hmem
              · simp only [Option.some.injEq, Except.ok.injEq, Prod.mk.injEq] at h
                obtain ⟨rfl, -⟩ := h
                rcases List.mem_singleton.mp hd with rfl
                constructor
                · by_cases hlz : len = 0
                  · simp [blobOkP, hlz]
                  · simp [blobOkP, padTake_length, hlz]
                · intro eps2 heps2
                  split at heps2
                  · simp at heps2
                  · rename_i hnz
                    simp only [Option.some.injEq] at heps2
                    subst heps2
                    rw [if_neg hnz] at heqeps
                    exact parse_endpoints_blob _ _ _ _ _ heqeps

lemma parse_config_interfaces_blob : ∀ (n fuel : Nat) (buf : List Nat) (size : Int)
    (ex : Option (List Nat)) (exl : Nat) (ifs : List Interface) (ex2 : Option (List Nat))
    (exl2 : Nat) (szf : Int),
    blobOkP ex exl →
    parse_config_interfaces fuel n buf size ex exl = some (.ok (ifs, ex2, exl2, szf)) →
    blobOkP ex2 exl2 ∧ ∀ i ∈ ifs, ∀ d ∈ i.altsetting,
      blobOkP d.extra d.extra_length ∧
      ∀ eps, d.endpoint = some eps → ∀ ep ∈ eps, blobOkP ep.extra ep.extra_length := by
  intro n
  induction n with
  | zero =>
    intro fuel buf size ex exl ifs ex2 exl2 szf hblob h
    simp only [parse_config_interfaces, Option.some.injEq, Except.ok.injEq,
      Prod.mk.injEq] at h
    obtain ⟨rfl, rfl, rfl, -⟩ := h
    exact ⟨hblob, by simp⟩
  | succ n ih =>
    intro fuel buf size ex exl ifs ex2 exl2 szf hblob h
    simp only [parse_config_interfaces] at h
    split at h
    · simp at h
    · rename_i len size1 heqskip
      split at h
      · simp at h
      · simp at h
      · rename_i intf c heqif
        split at h
        · simp at h
        · simp at h
        · rename_i ifs3 ex3 exl3 szf3 heqrec
          simp only [Option.some.injEq, Except.ok.injEq, Prod.mk.injEq] at h
          obtain ⟨rfl, rfl, rfl, -⟩ := h
          have hblob2 : blobOkP (if len ≠ 0 ∧ exl = 0 then some (padTake buf len) else ex)
              (if len ≠ 0 ∧ exl = 0 then len else exl) := by
            by_cases hc : len ≠ 0 ∧ exl = 0
            · rw [if_pos hc, if_pos hc]
              exact ⟨padTake_length _ _, hc.1⟩
            · rw [if_neg hc, if_neg hc]
              exact hblob
          obtain ⟨hb3, hall⟩ := ih fuel _ _ _ _ _ _ _ _ hblob2 heqrec
          refine ⟨hb3, ?_⟩
          intro i hi d hd
          rcases List.mem_cons.mp hi with rfl | hmem
          · have heqloop : ∃ altsv, parse_interface_loop fuel (buf.drop len) size1 =
                some (.ok (altsv, c)) ∧ i.altsetting = altsv := by
              simp only [parse_interface] at heqif
              split at heqif
              · simp at heqif
              · simp at heqif
              · rename_i altsv cv heqv
                simp only [Option.some.injEq, Except.ok.injEq, Prod.mk.injEq] at heqif
                obtain ⟨rfl, rfl⟩ := heqif
                exact ⟨altsv, heqv, rfl⟩
            obtain ⟨altsv, hloop, halts⟩ := heqloop
            rw [halts] at hd
            exact parse_interface_loop_blob fuel _ _ _ _ hloop d hd
          · exact hall i hmem d hd

lemma parse_configuration_blob (fuel : Nat) (buf : List Nat) (cfg : ConfigDescriptor) (r : Int)
    (h : parse_configuration fuel buf = some (.ok (cfg, r))) : nodeBlobsOk cfg := by
  simp only [parse_configuration] at h
  split at h
  · simp at h
  · split at h
    · simp at h
    · simp at h
    · rename_i ifs ex exl szf heq
      simp only [Option.some.injEq, Except.ok.injEq, Prod.mk.injEq] at h
      obtain ⟨rfl, -⟩ := h
      obtain ⟨hb, hall⟩ := parse_config_interfaces_blob _ fuel _ _ none 0
        ifs ex exl szf (by simp [blobOkP]) heq
      refine ⟨hb, ?_⟩
      intro ifs2 hifs2 i hi d hd
      simp only [Option.some.injEq] at hifs2
      subst hifs2
      exact hall i hi d hd

lemma getD_set_ne (l : List Nat) (i j v : Nat) (h : i ≠ j) :
    (l.set i v).getD j 0 = l.getD j 0 := by
  simp [List.getD, List.getElem?_set_ne h]

lemma getD_set_self (l : List Nat) (i v : Nat) (h : i < l.length) :
    (l.set i v).getD i 0 = v := by
  simp [List.getD, List.getElem?_set_self, h]

lemma ascii_loop_spec : ∀ (n : Nat) (tbuf : List Nat) (bLen : Nat) (length : Int)
    (data : List Nat) (di si : Nat),
    bLen - si ≤ n → (length : Int) ≤ (data.length : Int) → (di : Int) ≤ length - 1 →
    (ascii_loop tbuf bLen length data di si).1 =
      di + min ((bLen - si + 1) / 2) ((length - 1 - di).toNat) ∧
    (ascii_loop tbuf bLen length data di si).2.length = data.length ∧
    (∀ j, j < di ∨ (ascii_loop tbuf bLen length data di si).1 ≤ j →
      (ascii_loop tbuf bLen length data di si).2.getD j 0 = data.getD j 0) ∧
    (∀ k, di ≤ k → k < (ascii_loop tbuf bLen length data di si).1 →
      (ascii_loop tbuf bLen length data di si).2.getD k 0 =
        if tbuf.getD (si + 2 * (k - di) + 1) 0 ≠ 0 then 63
        else tbuf.getD (si + 2 * (k - di)) 0) := by
  intro n
  induction n with
  | zero =>
    intro tbuf bLen length data di si hn hcap hdi
    have hstop : ¬ si < bLen := by omega
    have heq : ascii_loop tbuf bLen length data di si = (di, data) := by
      rw [ascii_loop, if_neg hstop]
    rw [heq]
    have hA : (bLen - si + 1) / 2 = 0 := by omega
    refine ⟨by rw [hA]; simp, rfl, fun j _ => rfl, fun k h1 h2 => by simp at h2; omega⟩
  | succ n ih =>
    intro tbuf bLen length data di si hn hcap hdi
    by_cases hlt : si < bLen
    · by_cases hbreak : (di : Int) ≥ length - 1
      · have heq : ascii_loop tbuf bLen length data di si = (di, data) := by
          rw [ascii_loop, if_pos hlt, if_pos hbreak]
        rw [heq]
        have hB : (length - 1 - (di : Int)).toNat = 0 := by omega
        refine ⟨by rw [hB]; simp, rfl, fun j _ => rfl,
          fun k h1 h2 => by simp [hB] at h2; omega⟩
      · have hstep : ascii_loop tbuf bLen length data di si =
            ascii_loop tbuf bLen length
              (data.set di (if tbuf.getD (si + 1) 0 ≠ 0 then 63 else tbuf.getD si 0))
              (di + 1) (si + 2) := by
          rw [ascii_loop, if_pos hlt, if_neg hbreak]
          by_cases hhi : tbuf.getD (si + 1) 0 ≠ 0
          · rw [if_pos hhi, if_pos hhi]
          · rw [if_neg hhi, if_neg hhi]
        rw [hstep]
        obtain ⟨ih1, ih2, ih3, ih4⟩ := ih tbuf bLen length
          (data.set di (if tbuf.getD (si + 1) 0 ≠ 0 then 63 else tbuf.getD si 0))
          (di + 1) (si + 2) (by omega) (by rw [List.length_set]; exact hcap) (by omega)
        have hr1 : di + 1 ≤ (ascii_loop tbuf bLen length
            (data.set di (if tbuf.getD (si + 1) 0 ≠ 0 then 63 else tbuf.getD si 0))
            (di + 1) (si + 2)).1 := by
          rw [ih1]; omega
        have hdl : di < data.length := by omega
        refine ⟨?_, ?_, ?_, ?_⟩
        · rw [ih1]
          have hA : (bLen - si + 1) / 2 = (bLen - (si + 2) + 1) / 2 + 1 := by omega
          have hB : (length - 1 - (di : Int)).toNat =
              (length - 1 - ((di : Nat) + 1 : Nat)).toNat + 1 := by
            push_cast; omega
          rw [hA, hB, Nat.add_min_add_right]
          omega
        · rw [ih2, List.length_set]
        · intro j hj
          have hj2 : j < di + 1 ∨ (ascii_loop tbuf bLen length
              (data.set di (if tbuf.getD (si + 1) 0 ≠ 0 then 63 else tbuf.getD si 0))
              (di + 1) (si + 2)).1 ≤ j := by
            rcases hj with h | h
            · left; omega
            · right; exact h
          rw [ih3 j hj2]
          rcases hj with h | h
          · exact getD_set_ne _ _ _ _ (by omega)
          · exact getD_set_ne _ _ _ _ (by omega)
        · intro k hk1 hk2
          by_cases hkd : k = di
          · subst hkd
            rw [ih3 k (Or.inl (by omega))]
            rw [getD_set_self _ _ _ hdl]
            rw [show si + 2 * (k - k) + 1 = si + 1 from by omega]
            rw [show si + 2 * (k - k) = si from by omega]
          · have hik := ih4 k (by omega) hk2
            rw [hik]
            rw [show si + 2 + 2 * (k - (di + 1)) + 1 = si + 2 * (k - di) + 1 from by omega]
            rw [show si + 2 + 2 * (k - (di + 1)) = si + 2 * (k - di) from by omega]
    · have heq : ascii_loop tbuf bLen length data di si = (di, data) := by
        rw [ascii_loop, if_neg hlt]
      rw [heq]
      have hA : (bLen - si + 1) / 2 = 0 := by omega
      refine ⟨by rw [hA]; simp, rfl, fun j _ => rfl,
        fun k h1 h2 => by simp [hA] at h2; omega⟩

set_option maxHeartbeats 1000000 in
/-- C7: for every valid 18-byte device descriptor buffer, decoding it with the
device-descriptor field format via the field codec and then re-encoding the
typed fields back to wire format (verbatim for bytes and native-order words on
a little-endian host) reproduces the original 18 bytes exactly, and the codec
reports exactly 18 source bytes consumed. -/
theorem C7_device_roundtrip (src : List Nat) (h : src.length = 18) :
    spec_reencode deviceDescFmt (parse_device_descriptor src).1 0 = src ∧
    (parse_device_descriptor src).2 = 18 := by
  rcases src with _ | ⟨a0, src⟩
  · simp at h
  rcases src with _ | ⟨a1, src⟩
  · simp at h
  rcases src with _ | ⟨a2, src⟩
  · simp at h
  rcases src with _ | ⟨a3, src⟩
  · simp at h
  rcases src with _ | ⟨a4, src⟩
  · simp at h
  rcases src with _ | ⟨a5, src⟩
  · simp at h
  rcases src with _ | ⟨a6, src⟩
  · simp at h
  rcases src with _ | ⟨a7, src⟩
  · simp at h
  rcases src with _ | ⟨a8, src⟩
  · simp at h
  rcases src with _ | ⟨a9, src⟩
  · simp at h
  rcases src with _ | ⟨a10, src⟩
  · simp at h
  rcases src with _ | ⟨a11, src⟩
  · simp at h
  rcases src with _ | ⟨a12, src⟩
  · simp at h
  rcases src with _ | ⟨a13, src⟩
  · simp at h
  rcases src with _ | ⟨a14, src⟩
  · simp at h
  rcases src with _ | ⟨a15, src⟩
  · simp at h
  rcases src with _ | ⟨a16, src⟩
  · simp at h
  rcases src with _ | ⟨a17, src⟩
  · simp at h
  rcases src with _ | ⟨a18, src⟩
  · constructor
    · simp [spec_reencode, parse_device_descriptor, usbi_parse_descriptor, deviceDescFmt,
        runDesc, List.replicate, List.set, List.getD]
    · simp [parse_device_descriptor, usbi_parse_descriptor, deviceDescFmt, runDesc,
        List.replicate, List.set, List.getD]
  · simp at h

/-- C7 witness at a concrete 18-byte device descriptor. -/
theorem C7_device_roundtrip_witness :
    ([18, 1, 0, 2, 0, 0, 0, 64, 109, 4, 16, 17, 0, 1, 1, 2, 3, 1] : List Nat).length = 18 ∧
    spec_reencode deviceDescFmt
      (parse_device_descriptor [18, 1, 0, 2, 0, 0, 0, 64, 109, 4, 16, 17, 0, 1, 1, 2, 3, 1]).1 0 =
      [18, 1, 0, 2, 0, 0, 0, 64, 109, 4, 16, 17, 0, 1, 1, 2, 3, 1] ∧
    (parse_device_descriptor [18, 1, 0, 2, 0, 0, 0, 64, 109, 4, 16, 17, 0, 1, 1, 2, 3, 1]).2 = 18 := by
  refine ⟨by decide, ?_, ?_⟩
  · exact (C7_device_roundtrip [18, 1, 0, 2, 0, 0, 0, 64, 109, 4, 16, 17, 0, 1, 1, 2, 3, 1]
      (by decide)).1
  · exact (C7_device_roundtrip [18, 1, 0, 2, 0, 0, 0, 64, 109, 4, 16, 17, 0, 1, 1, 2, 3, 1]
      (by decide)).2


instance : DecidablePred isTopLevelType := fun t => by
  unfold isTopLevelType; infer_instance

unseal skipRun in
/-- C1 counterexample: at the endpoint level a trailing class-specific
descriptor declaring bLength 9 with only 2 bytes remaining does not make the
parse fail.  On the buffer 07 05 81 02 40 00 00 09 21 with size 9,
parse_endpoint succeeds and reports 16 bytes consumed out of the 9 available
(silent over-consumption), refuting the claim that a declared length greater
than the number of bytes remaining always causes an error return. -/
theorem C1_counterexample :
    (parse_endpoint [7, 5, 129, 2, 64, 0, 0, 9, 33] 9).toOption.map Prod.snd = some 16 ∧
    9 < 16 := by
  exact ⟨by decide, by decide⟩

/-- C1 amended: declared-length validation happens exactly where the source
checks it: (i) every skip loop fails on a descriptor with bLength below the
2-byte header size; (ii) the configuration-level skip loop additionally fails
when bLength exceeds the remaining size; (iii) parse_endpoint fails when the
endpoint header declares more bytes than remain; but (iv) at the endpoint-
and interface-level skip loops an unrecognized descriptor whose bLength
exceeds the remaining size is silently consumed in full, the loop returning
success with more bytes consumed than remained (the violation only surfaces
later as a negative leftover at the configuration level). -/
theorem C1_amended_checks :
    (∀ (co : Bool) (buf : List Nat) (size : Int), 2 ≤ size → buf.getD 0 0 < 2 →
      skipRun co buf size = none) ∧
    (∀ (buf : List Nat) (size : Int), 2 ≤ size → 2 ≤ buf.getD 0 0 →
      size < (buf.getD 0 0 : Int) → skipRun true buf size = none) ∧
    (∀ (buf : List Nat) (size : Int), size < (buf.getD 0 0 : Int) →
      parse_endpoint buf size = .error (-1)) ∧
    (∀ (len ty : Nat) (rest : List Nat) (size : Int), 2 ≤ size → 2 ≤ len →
      (size : Int) < (len : Int) → ¬ isTopLevelType ty →
      skipRun false (len :: ty :: rest) size = some (len, size - len)) := by
  refine ⟨?_, ?_, ?_, ?_⟩
  · intro co buf size h2 hl
    rw [skipRun, dif_pos h2, dif_pos hl]
  · intro buf size h2 hg ho
    rw [skipRun, dif_pos h2, dif_neg (by omega), if_pos ⟨rfl, ho⟩]
  · intro buf size hlt
    simp only [parse_endpoint]
    rw [if_pos hlt]
  · intro len ty rest size h2 hl ho htl
    rw [skipRun, dif_pos h2]
    simp only [List.getD_cons_zero, List.getD_cons_succ]
    rw [dif_neg (by omega)]
    rw [if_neg (by simpa [isTopLevelType] using htl)]
    rw [skipRun, dif_neg (by omega)]
    rw [if_neg (by simpa [isTopLevelType] using htl)]
    simp

/-- C1 amended witness at concrete inputs. -/
theorem C1_amended_checks_witness :
    skipRun false [1, 7, 0] 3 = none ∧
    skipRun true [5, 33, 0] 3 = none ∧
    parse_endpoint [9, 5] 3 = .error (-1) ∧
    skipRun false (4 :: 33 :: [0, 0]) 3 = some (4, 3 - 4) := by
  refine ⟨C1_amended_checks.1 false [1, 7, 0] 3 (by decide) (by decide),
    C1_amended_checks.2.1 [5, 33, 0] 3 (by decide) (by decide) (by decide),
    C1_amended_checks.2.2.1 [9, 5] 3 (by decide),
    C1_amended_checks.2.2.2 4 33 [0, 0] 3 (by decide) (by decide) (by decide) (by decide)⟩

/-- C5: a declared interface count above USB_MAXINTERFACES makes
parse_configuration fail with LIBUSB_ERROR_IO at once, for every buffer and
fuel, before any interface slot is produced (the error result carries no
interfaces); and a declared endpoint count above USB_MAXENDPOINTS makes the
altsetting loop of parse_interface fail with LIBUSB_ERROR_IO regardless of
the bytes of the endpoint region, without producing any endpoint. -/
theorem C5_limits :
    (∀ (fuel : Nat) (buf : List Nat), USB_MAXINTERFACES < buf.getD 4 0 →
      parse_configuration fuel buf = some (.error LIBUSB_ERROR_IO_CODE)) ∧
    (∀ (fuel : Nat) (hdr rest : List Nat), hdr.length = 9 → hdr.getD 0 0 = 9 →
      USB_MAXENDPOINTS < hdr.getD 4 0 →
      (rest.length < 2 ∨ (2 ≤ rest.getD 0 0 ∧ rest.getD 1 0 = LIBUSB_DT_ENDPOINT)) →
      parse_interface_loop (fuel + 1) (hdr ++ rest) ((hdr ++ rest).length : Int) =
        some (.error LIBUSB_ERROR_IO_CODE)) := by
  constructor
  · intro fuel buf hmax
    simp only [parse_configuration]
    rw [if_pos hmax]
  · intro fuel hdr rest h9 hg0 hmax hrest
    have hg0' : (hdr ++ rest).getD 0 0 = 9 := by
      rw [List.getD_append _ _ _ _ (by omega)]; exact hg0
    have hg4' : (hdr ++ rest).getD 4 0 = hdr.getD 4 0 :=
      List.getD_append _ _ _ _ (by omega)
    simp only [parse_interface_loop, hg0', hg4']
    rw [if_neg (by simp only [List.length_append, INTERFACE_DESC_LENGTH]; push_cast; omega)]
    have hdrop : (hdr ++ rest).drop 9 = rest := by
      rw [← h9]; exact List.drop_left _ _
    rw [hdrop]
    have hsz : ((hdr ++ rest).length : Int) - ((9 : Nat) : Int) = (rest.length : Int) := by
      simp only [List.length_append]; push_cast; omega
    rw [hsz]
    have hskip : skipRun false rest (rest.length : Int) = some (0, (rest.length : Int)) := by
      rcases hrest with h | ⟨h0, h1⟩
      · rw [skipRun, dif_neg (by push_cast; omega)]
      · have hlen2 : 2 ≤ rest.length := by
          by_contra hc
          rw [List.getD_eq_default _ _ (by omega)] at h1
          simp [LIBUSB_DT_ENDPOINT] at h1
        rw [skipRun, dif_pos (by push_cast; omega), dif_neg (by omega),
          if_neg (by rintro ⟨hfalse, -⟩; exact absurd hfalse (by simp)),
          if_pos (Or.inl h1)]
    rw [hskip]
    dsimp only
    rw [List.drop_zero]
    rw [if_neg (by
      rintro ⟨hs2, hty⟩
      rcases hrest with h | ⟨h0, h1⟩
      · have : (2 : Int) ≤ (rest.length : Int) := hs2
        omega
      · rw [h1] at hty
        simp [LIBUSB_DT_ENDPOINT, LIBUSB_DT_CONFIG, LIBUSB_DT_DEVICE] at hty)]
    rw [if_pos hmax]

/-- C5 witness: a configuration declaring 33 interfaces and an interface
declaring 33 endpoints. -/
theorem C5_limits_witness :
    parse_configuration 1 [9, 2, 9, 0, 33, 1, 0, 128, 50] =
      some (.error LIBUSB_ERROR_IO_CODE) ∧
    parse_interface_loop 1 ([9, 4, 0, 0, 33, 255, 0, 0, 0] ++ [7, 5, 129, 2, 64, 0, 0])
      ((([9, 4, 0, 0, 33, 255, 0, 0, 0] ++ [7, 5, 129, 2, 64, 0, 0]).length : Nat) : Int) =
      some (.error LIBUSB_ERROR_IO_CODE) :=
  ⟨C5_limits.1 1 [9, 2, 9, 0, 33, 1, 0, 128, 50] (by decide),
   C5_limits.2 0 [9, 4, 0, 0, 33, 255, 0, 0, 0] [7, 5, 129, 2, 64, 0, 0] (by decide) (by decide)
     (by decide) (Or.inr ⟨by decide, by decide⟩)⟩

/-- C6: every configuration tree returned by parse_configuration (any fuel,
any buffer, any leftover) has consistent extra blobs at every node: a blob is
never absent with a nonzero recorded length, never present with a zero
recorded length, and the recorded length always equals the blob size; failed
parses return no tree at all. -/
theorem C6_extra_consistency (fuel : Nat) (buf : List Nat) (cfg : ConfigDescriptor) (r : Int)
    (h : parse_configuration fuel buf = some (.ok (cfg, r))) : nodeBlobsOk cfg :=
  parse_configuration_blob fuel buf cfg r h

/-- The 18-byte scenario stream of the spec. -/
def bufC6 : List Nat := [9, 2, 18, 0, 1, 1, 0, 128, 50, 9, 4, 0, 0, 0, 255, 0, 0, 0]

/-- The single alternate setting parsed from bufC6. -/
def ifdC6 : InterfaceDescriptor :=
  { bLength := 9, bDescriptorType := 4, bInterfaceNumber := 0, bAlternateSetting := 0,
    bNumEndpoints := 0, bInterfaceClass := 255, bInterfaceSubClass := 0,
    bInterfaceProtocol := 0, iInterface := 0, endpoint := none, extra := none,
    extra_length := 0 }

/-- The configuration tree parsed from bufC6. -/
def cfgC6 : ConfigDescriptor :=
  { bLength := 9, bDescriptorType := 2, wTotalLength := 18, bNumInterfaces := 1,
    bConfigurationValue := 1, iConfiguration := 0, bmAttributes := 128, MaxPower := 50,
    interface := some [{ altsetting := [ifdC6] }], extra := none, extra_length := 0 }

deriving instance DecidableEq for Except

unseal skipRun in
/-- C6 witness on the scenario stream. -/
theorem C6_extra_consistency_witness : nodeBlobsOk cfgC6 :=
  C6_extra_consistency 2 bufC6 cfgC6 0 (by decide)

instance : DecidablePred EpShapeOk := fun e => by unfold EpShapeOk; infer_instance

instance : DecidablePred AltShapeOk := fun a => by unfold AltShapeOk; infer_instance

instance : DecidablePred IfListOk := fun l => by unfold IfListOk; infer_instance

instance : ∀ l, Decidable (headAltZero l) := fun l => by
  cases l <;> simp only [headAltZero] <;> infer_instance

instance : DecidablePred ConfigShapeOk := fun c => by unfold ConfigShapeOk; infer_instance

/-- C2: parse_configuration consumes a well-formed configuration stream whose
declared lengths sum exactly to wTotalLength completely and returns leftover
zero; and the retrieval entry points (by index and active) treat the returned
leftover uniformly: negative is fatal (NULL result), otherwise the descriptor
is returned, so a positive leftover is a non-fatal warning. -/
theorem C2_exact_consumption_and_entry :
    (∀ (c : ConfigShape) (fuel : Nat), ConfigShapeOk c →
      (∀ l ∈ c.ifaces, List.length l ≤ fuel) →
      ∃ cfg, parse_configuration fuel c.bytes = some (.ok (cfg, 0))) ∧
    (∀ (be : Backend) (fuel : Nat) (idx : Nat) (cfg : ConfigDescriptor) (r : Int),
      idx < be.num_configurations →
      0 ≤ (be.get_config_descriptor idx 8).1 →
      0 ≤ (be.get_config_descriptor idx
        ((be.get_config_descriptor idx 8).2.getD 2 0 +
          256 * (be.get_config_descriptor idx 8).2.getD 3 0)).1 →
      parse_configuration fuel (be.get_config_descriptor idx
        ((be.get_config_descriptor idx 8).2.getD 2 0 +
          256 * (be.get_config_descriptor idx 8).2.getD 3 0)).2 = some (.ok (cfg, r)) →
      libusb_get_config_descriptor be fuel idx =
        if r < 0 then some none else some (some cfg)) ∧
    (∀ (be : Backend) (fuel : Nat) (cfg : ConfigDescriptor) (r : Int),
      0 ≤ (be.get_active_config_descriptor 8).1 →
      0 ≤ (be.get_active_config_descriptor
        ((be.get_active_config_descriptor 8).2.getD 2 0 +
          256 * (be.get_active_config_descriptor 8).2.getD 3 0)).1 →
      parse_configuration fuel (be.get_active_config_descriptor
        ((be.get_active_config_descriptor 8).2.getD 2 0 +
          256 * (be.get_active_config_descriptor 8).2.getD 3 0)).2 = some (.ok (cfg, r)) →
      libusb_get_active_config_descriptor be fuel =
        if r < 0 then some none else some (some cfg)) := by
  refine ⟨?_, ?_, ?_⟩
  · intro c fuel hok hfuel
    obtain ⟨cfg, hp, -⟩ := parse_configuration_shape c fuel hok hfuel
    exact ⟨cfg, hp⟩
  · intro be fuel idx cfg r hidx h1 h2 hp
    simp only [libusb_get_config_descriptor]
    rw [if_neg (by omega), if_neg (by omega), if_neg (by omega), hp]
  · intro be fuel cfg r h1 h2 hp
    simp only [libusb_get_active_config_descriptor]
    rw [if_neg (by omega), if_neg (by omega), hp]

/-- A well-formed shape serialising to the 18-byte scenario stream. -/
def shapeC2 : ConfigShape :=
  { hdr := [9, 2, 18, 0, 1, 1, 0, 128, 50], leadRun := [],
    ifaces := [[{ hdr := [9, 4, 0, 0, 0, 255, 0, 0, 0], extras := [], eps := [] }]] }

/-- A backend handing out the scenario stream for every request. -/
def beC2 : Backend :=
  { num_configurations := 1,
    get_config_descriptor := fun _ len => ((len : Int), bufC6),
    get_active_config_descriptor := fun len => ((len : Int), bufC6) }

unseal skipRun in
/-- C2 witness: the scenario shape parses with zero leftover, and both entry
points return the parsed descriptor. -/
theorem C2_exact_consumption_and_entry_witness :
    (∃ cfg, parse_configuration 2 shapeC2.bytes = some (.ok (cfg, 0))) ∧
    libusb_get_config_descriptor beC2 2 0 = some (some cfgC6) ∧
    libusb_get_active_config_descriptor beC2 2 = some (some cfgC6) := by
  refine ⟨C2_exact_consumption_and_entry.1 shapeC2 2 (by decide) (by decide), ?_, ?_⟩
  · have h := C2_exact_consumption_and_entry.2.1 beC2 2 0 cfgC6 0 (by decide) (by decide)
      (by decide) (by decide)
    simpa using h
  · have h := C2_exact_consumption_and_entry.2.2 beC2 2 cfgC6 0 (by decide) (by decide)
      (by decide)
    simpa using h

/-- The run of unrecognized descriptors at the very end of one logical
interface: the trailing extras of its last endpoint, or of its last
altsetting when that altsetting has no endpoints.  In the serialised stream
these bytes sit immediately before the next interface header, so a nonempty
value is a second syntactic configuration-level run. -/
def lastTrailingRun (l : List AltShape) : List SubDesc :=
  match l.getLast? with
  | none => []
  | some a =>
    match a.eps.getLast? with
    | none => a.extras
    | some e => e.extras

/-- C3: on a well-formed configuration stream with at least two interfaces, a
nonempty run of unrecognized descriptors before the first interface, and a
second nonempty run between the first and the second interface, the parsed
ConfigDescriptor extra blob holds exactly the bytes of the first run; the
later configuration-level run is never appended to the blob (it is consumed
into the trailing extra of the innermost preceding node instead). -/
theorem C3_first_run_only (c : ConfigShape) (l0 l1 : List AltShape)
    (ls : List (List AltShape)) (fuel : Nat)
    (hif : c.ifaces = l0 :: l1 :: ls) (hok : ConfigShapeOk c)
    (hlead : c.leadRun ≠ []) (hsecond : lastTrailingRun l0 ≠ [])
    (hfuel : ∀ l ∈ c.ifaces, List.length l ≤ fuel) :
    ∃ cfg, parse_configuration fuel c.bytes = some (.ok (cfg, 0)) ∧
      cfg.extra = some (runBytes c.leadRun) ∧
      cfg.extra_length = (runBytes c.leadRun).length := by
  obtain ⟨cfg, hp, hex, hexl, -, -⟩ := parse_configuration_shape c fuel hok hfuel
  have hne : (runBytes c.leadRun).length ≠ 0 := by
    cases hlr : c.leadRun with
    | nil => exact absurd hlr hlead
    | cons s rs => simp [runBytes, SubDesc.bytes]
  rw [if_neg hne] at hex
  exact ⟨cfg, hp, hex, hexl⟩

/-- A shape with a lead run and a second syntactic configuration-level run
(the trailing extras of the only altsetting of interface 0). -/
def shapeC3 : ConfigShape :=
  { hdr := [9, 2, 32, 0, 2, 1, 0, 128, 50],
    leadRun := [{ ty := 33, payload := [170] }],
    ifaces := [[{ hdr := [9, 4, 0, 0, 0, 255, 0, 0, 0],
                  extras := [{ ty := 34, payload := [] }], eps := [] }],
               [{ hdr := [9, 4, 1, 0, 0, 255, 0, 0, 0], extras := [], eps := [] }]] }

/-- C3 witness on shapeC3. -/
theorem C3_first_run_only_witness :
    ∃ cfg, parse_configuration 2 shapeC3.bytes = some (.ok (cfg, 0)) ∧
      cfg.extra = some (runBytes shapeC3.leadRun) ∧
      cfg.extra_length = (runBytes shapeC3.leadRun).length :=
  C3_first_run_only shapeC3 _ _ [] 2 rfl (by decide) (by decide) (by decide) (by decide)

/-- The interface-descriptor record that the altsetting loop fills from a
9-byte interface header with no endpoints and no trailing run. -/
def ifdOfHdr (h : List Nat) : InterfaceDescriptor :=
  { bLength := h.getD 0 0, bDescriptorType := h.getD 1 0, bInterfaceNumber := h.getD 2 0,
    bAlternateSetting := h.getD 3 0, bNumEndpoints := h.getD 4 0,
    bInterfaceClass := h.getD 5 0, bInterfaceSubClass := h.getD 6 0,
    bInterfaceProtocol := h.getD 7 0, iInterface := h.getD 8 0,
    endpoint := none, extra := none, extra_length := 0 }

lemma getD_append_lt (l1 l2 : List Nat) (k : Nat) (h : k < l1.length) :
    (l1 ++ l2).getD k 0 = l1.getD k 0 := List.getD_append _ _ _ _ h

lemma parse_interface_loop_stop (h rest : List Nat) (fuel : Nat)
    (hl : h.length = 9) (h0 : h.getD 0 0 = 9) (h4 : h.getD 4 0 = 0)
    (hrest : rest = [] ∨ (9 ≤ rest.length ∧ rest.getD 0 0 = 9 ∧
      rest.getD 1 0 = LIBUSB_DT_INTERFACE ∧ rest.getD 3 0 = 0)) :
    parse_interface_loop (fuel + 1) (h ++ rest) ((h ++ rest).length : Int) =
      some (.ok ([ifdOfHdr h], 9)) := by
  have hg0 : (h ++ rest).getD 0 0 = 9 := by rw [getD_append_lt _ _ _ (by omega)]; exact h0
  have hg4 : (h ++ rest).getD 4 0 = 0 := by rw [getD_append_lt _ _ _ (by omega)]; exact h4
  simp only [parse_interface_loop, hg0, hg4]
  rw [if_neg (by simp only [List.length_append, INTERFACE_DESC_LENGTH]; push_cast; omega)]
  have hdrop : (h ++ rest).drop 9 = rest := by rw [← hl]; exact List.drop_left _ _
  rw [hdrop]
  have hsz : ((h ++ rest).length : Int) - ((9 : Nat) : Int) = (rest.length : Int) := by
    simp only [List.length_append]; push_cast; omega
  rw [hsz]
  have hskip : skipRun false rest (rest.length : Int) = some (0, (rest.length : Int)) := by
    rcases hrest with rfl | ⟨hr9, hr0, hr1, -⟩
    · rw [skipRun, dif_neg (by norm_num)]
    · rw [skipRun, dif_pos (by push_cast; omega), dif_neg (by omega),
        if_neg (by rintro ⟨hfalse, -⟩; exact absurd hfalse (by simp)),
        if_pos (Or.inr (Or.inl hr1))]
  rw [hskip]
  dsimp only
  rw [List.drop_zero]
  rw [if_neg (by
    rintro ⟨hs2, hty⟩
    rcases hrest with rfl | ⟨-, -, hr1, -⟩
    · norm_num at hs2
    · rw [hr1] at hty
      simp [LIBUSB_DT_INTERFACE, LIBUSB_DT_CONFIG, LIBUSB_DT_DEVICE] at hty)]
  rw [if_neg (by norm_num [USB_MAXENDPOINTS])]
  simp only [if_true]
  rw [List.drop_zero]
  have hsz0 : (rest.length : Int) - ((0 : Nat) : Int) = (rest.length : Int) := by
    push_cast; ring
  rw [hsz0]
  rw [if_neg (by
    intro hc
    rw [iface_continue_cond_iff] at hc
    obtain ⟨hs, -, hz⟩ := hc
    rcases hrest with rfl | ⟨-, -, -, hr3⟩
    · norm_num [LIBUSB_DT_INTERFACE_SIZE] at hs
    · exact hz hr3)]
  have hg1 : (h ++ rest).getD 1 0 = h.getD 1 0 := getD_append_lt _ _ _ (by omega)
  have hg2 : (h ++ rest).getD 2 0 = h.getD 2 0 := getD_append_lt _ _ _ (by omega)
  have hg3 : (h ++ rest).getD 3 0 = h.getD 3 0 := getD_append_lt _ _ _ (by omega)
  have hg5 : (h ++ rest).getD 5 0 = h.getD 5 0 := getD_append_lt _ _ _ (by omega)
  have hg6 : (h ++ rest).getD 6 0 = h.getD 6 0 := getD_append_lt _ _ _ (by omega)
  have hg7 : (h ++ rest).getD 7 0 = h.getD 7 0 := getD_append_lt _ _ _ (by omega)
  have hg8 : (h ++ rest).getD 8 0 = h.getD 8 0 := getD_append_lt _ _ _ (by omega)
  rw [hg1, hg2, hg3, hg5, hg6, hg7, hg8]
  simp [ifdOfHdr, h0, h4]
  simp only [List.getD, List.get?_eq_getElem?] at h0 h4
  exact ⟨h0.symm, h4.symm⟩

lemma parse_interface_loop_step (h rest : List Nat) (fuel : Nat)
    (hl : h.length = 9) (h0 : h.getD 0 0 = 9) (h4 : h.getD 4 0 = 0)
    (hr9 : 9 ≤ rest.length) (hr0 : rest.getD 0 0 = 9)
    (hr1 : rest.getD 1 0 = LIBUSB_DT_INTERFACE) (hr3 : rest.getD 3 0 ≠ 0) :
    parse_interface_loop (fuel + 1) (h ++ rest) ((h ++ rest).length : Int) =
      (match parse_interface_loop fuel rest (rest.length : Int) with
       | none => none
       | some (.error e) => some (.error e)
       | some (.ok (ifds, c2)) => some (.ok (ifdOfHdr h :: ifds, 9 + c2))) := by
  have hg0 : (h ++ rest).getD 0 0 = 9 := by rw [getD_append_lt _ _ _ (by omega)]; exact h0
  have hg4 : (h ++ rest).getD 4 0 = 0 := by rw [getD_append_lt _ _ _ (by omega)]; exact h4
  simp only [parse_interface_loop, hg0, hg4]
  rw [if_neg (by simp only [List.length_append, INTERFACE_DESC_LENGTH]; push_cast; omega)]
  have hdrop : (h ++ rest).drop 9 = rest := by rw [← hl]; exact List.drop_left _ _
  rw [hdrop]
  have hsz : ((h ++ rest).length : Int) - ((9 : Nat) : Int) = (rest.length : Int) := by
    simp only [List.length_append]; push_cast; omega
  rw [hsz]
  have hskip : skipRun false rest (rest.length : Int) = some (0, (rest.length : Int)) := by
    rw [skipRun, dif_pos (by push_cast; omega), dif_neg (by omega),
      if_neg (by rintro ⟨hfalse, -⟩; exact absurd hfalse (by simp)),
      if_pos (Or.inr (Or.inl hr1))]
  rw [hskip]
  dsimp only
  rw [List.drop_zero]
  rw [if_neg (by
    rintro ⟨hs2, hty⟩
    rw [hr1] at hty
    simp [LIBUSB_DT_INTERFACE, LIBUSB_DT_CONFIG, LIBUSB_DT_DEVICE] at hty)]
  rw [if_neg (by norm_num [USB_MAXENDPOINTS])]
  simp only [if_true]
  rw [List.drop_zero]
  have hsz0 : (rest.length : Int) - ((0 : Nat) : Int) = (rest.length : Int) := by
    push_cast; ring
  rw [hsz0]
  rw [if_pos (by
    rw [iface_continue_cond_iff]
    exact ⟨by simp only [LIBUSB_DT_INTERFACE_SIZE]; push_cast; omega, hr1, hr3⟩)]
  have hg1 : (h ++ rest).getD 1 0 = h.getD 1 0 := getD_append_lt _ _ _ (by omega)
  have hg2 : (h ++ rest).getD 2 0 = h.getD 2 0 := getD_append_lt _ _ _ (by omega)
  have hg3 : (h ++ rest).getD 3 0 = h.getD 3 0 := getD_append_lt _ _ _ (by omega)
  have hg5 : (h ++ rest).getD 5 0 = h.getD 5 0 := getD_append_lt _ _ _ (by omega)
  have hg6 : (h ++ rest).getD 6 0 = h.getD 6 0 := getD_append_lt _ _ _ (by omega)
  have hg7 : (h ++ rest).getD 7 0 = h.getD 7 0 := getD_append_lt _ _ _ (by omega)
  have hg8 : (h ++ rest).getD 8 0 = h.getD 8 0 := getD_append_lt _ _ _ (by omega)
  cases hres : parse_interface_loop fuel rest (rest.length : Int) with
  | none => rfl
  | some res =>
    cases res with
    | error e => rfl
    | ok p =>
      obtain ⟨ifds, c2⟩ := p
      rw [hg1, hg2, hg3, hg5, hg6, hg7, hg8]
      simp [ifdOfHdr, h0, h4]
      simp only [List.getD, List.get?_eq_getElem?] at h0 h4
      exact ⟨h0.symm, h4.symm⟩

/-- C4: the altsetting loop of parse_interface continues into another
alternate setting exactly when at least LIBUSB_DT_INTERFACE_SIZE bytes remain
and the peeked descriptor has interface type with a nonzero
bAlternateSetting (first conjunct, the condition of lines 301-306); on a
stream of two 9-byte interface headers whose second declares a nonzero
bAlternateSetting the loop yields both descriptors in stream order (second
conjunct), while a second header with bAlternateSetting zero ends the loop
after one descriptor (third conjunct); and a configuration declaring one
interface whose body carries the two alternate settings parses into exactly
one Interface entry holding both InterfaceDescriptors in stream order
(fourth conjunct). -/
theorem C4_altsetting_grouping :
    (∀ (buf : List Nat) (size : Int),
      iface_continue_cond buf size = true ↔
        ((LIBUSB_DT_INTERFACE_SIZE : Int) ≤ size ∧ buf.getD 1 0 = LIBUSB_DT_INTERFACE ∧
          buf.getD 3 0 ≠ 0)) ∧
    (∀ (h1 h2 : List Nat) (fuel : Nat), h1.length = 9 → h1.getD 0 0 = 9 →
      h1.getD 4 0 = 0 → h2.length = 9 → h2.getD 0 0 = 9 →
      h2.getD 1 0 = LIBUSB_DT_INTERFACE → h2.getD 4 0 = 0 → h2.getD 3 0 ≠ 0 →
      parse_interface_loop (fuel + 2) (h1 ++ h2) ((h1 ++ h2).length : Int) =
        some (.ok ([ifdOfHdr h1, ifdOfHdr h2], 18))) ∧
    (∀ (h1 h2 : List Nat) (fuel : Nat), h1.length = 9 → h1.getD 0 0 = 9 →
      h1.getD 4 0 = 0 → h2.length = 9 → h2.getD 0 0 = 9 →
      h2.getD 1 0 = LIBUSB_DT_INTERFACE → h2.getD 3 0 = 0 →
      parse_interface_loop (fuel + 1) (h1 ++ h2) ((h1 ++ h2).length : Int) =
        some (.ok ([ifdOfHdr h1], 9))) ∧
    (∀ (chdr h1 h2 : List Nat) (fuel : Nat), chdr.length = 9 → chdr.getD 0 0 = 9 →
      chdr.getD 2 0 + 256 * chdr.getD 3 0 = 27 → chdr.getD 4 0 = 1 →
      h1.length = 9 → h1.getD 0 0 = 9 → h1.getD 1 0 = LIBUSB_DT_INTERFACE →
      h1.getD 4 0 = 0 → h2.length = 9 → h2.getD 0 0 = 9 →
      h2.getD 1 0 = LIBUSB_DT_INTERFACE → h2.getD 4 0 = 0 → h2.getD 3 0 ≠ 0 →
      ∃ cfg, parse_configuration (fuel + 2) (chdr ++ h1 ++ h2) = some (.ok (cfg, 0)) ∧
        cfg.interface = some [{ altsetting := [ifdOfHdr h1, ifdOfHdr h2] }]) := by
  have htwo : ∀ (h1 h2 : List Nat) (fuel : Nat), h1.length = 9 → h1.getD 0 0 = 9 →
      h1.getD 4 0 = 0 → h2.length = 9 → h2.getD 0 0 = 9 →
      h2.getD 1 0 = LIBUSB_DT_INTERFACE → h2.getD 4 0 = 0 → h2.getD 3 0 ≠ 0 →
      parse_interface_loop (fuel + 2) (h1 ++ h2) ((h1 ++ h2).length : Int) =
        some (.ok ([ifdOfHdr h1, ifdOfHdr h2], 18)) := by
    intro h1 h2 fuel hl1 h10 h14 hl2 h20 h21 h24 h23
    have hstep := parse_interface_loop_step h1 h2 (fuel + 1) hl1 h10 h14 (by omega) h20 h21 h23
    have hsingle : parse_interface_loop (fuel + 1) h2 ((h2.length : Nat) : Int) =
        some (.ok ([ifdOfHdr h2], 9)) := by
      have hs := parse_interface_loop_stop h2 [] fuel hl2 h20 h24 (Or.inl rfl)
      simpa using hs
    rw [show fuel + 2 = fuel + 1 + 1 from rfl, hstep, hsingle]
  refine ⟨iface_continue_cond_iff, htwo, ?_, ?_⟩
  · intro h1 h2 fuel hl1 h10 h14 hl2 h20 h21 h23z
    exact parse_interface_loop_stop h1 h2 fuel hl1 h10 h14
      (Or.inr ⟨by omega, h20, h21, h23z⟩)
  · intro chdr h1 h2 fuel hcl hc0 hc23 hc4 hl1 h10 h11 h14 hl2 h20 h21 h24 h23
    rw [List.append_assoc]
    have hg0 : (chdr ++ (h1 ++ h2)).getD 0 0 = 9 := by
      rw [getD_append_lt _ _ _ (by omega)]; exact hc0
    have hg2 : (chdr ++ (h1 ++ h2)).getD 2 0 = chdr.getD 2 0 :=
      getD_append_lt _ _ _ (by omega)
    have hg3 : (chdr ++ (h1 ++ h2)).getD 3 0 = chdr.getD 3 0 :=
      getD_append_lt _ _ _ (by omega)
    have hg4 : (chdr ++ (h1 ++ h2)).getD 4 0 = 1 := by
      rw [getD_append_lt _ _ _ (by omega)]; exact hc4
    simp only [parse_configuration, hg0, hg2, hg3, hg4, hc23]
    rw [if_neg (by norm_num [USB_MAXINTERFACES])]
    have hdrop : (chdr ++ (h1 ++ h2)).drop 9 = h1 ++ h2 := by
      rw [← hcl]; exact List.drop_left _ _
    rw [hdrop]
    have hsz : ((27 : Nat) : Int) - ((9 : Nat) : Int) = ((h1 ++ h2).length : Int) := by
      simp only [List.length_append, hl1, hl2]; norm_num
    rw [hsz]
    rw [show (1 : Nat) = 0 + 1 from rfl]
    simp only [parse_config_interfaces]
    have hg0h : (h1 ++ h2).getD 0 0 = 9 := by
      rw [getD_append_lt _ _ _ (by omega)]; exact h10
    have hg1h : (h1 ++ h2).getD 1 0 = LIBUSB_DT_INTERFACE := by
      rw [getD_append_lt _ _ _ (by omega)]; exact h11
    have hskipc : skipRun true (h1 ++ h2) ((h1 ++ h2).length : Int) =
        some (0, ((h1 ++ h2).length : Int)) := by
      rw [skipRun, dif_pos (by simp only [List.length_append, hl1, hl2]; norm_num),
        dif_neg (by omega), if_neg (by
          rintro ⟨-, hlt⟩
          rw [hg0h] at hlt
          simp only [List.length_append, hl1, hl2] at hlt
          norm_num at hlt),
        if_pos (Or.inr (Or.inl hg1h))]
    rw [hskipc]
    dsimp only
    rw [if_neg (by simp), if_neg (by simp), List.drop_zero]
    simp only [parse_interface]
    rw [htwo h1 h2 fuel hl1 h10 h14 hl2 h20 h21 h24 h23]
    dsimp only
    have hdrop18 : ((h1 ++ h2).length : Int) - ((18 : Nat) : Int) = ((0 : Nat) : Int) := by
      simp only [List.length_append, hl1, hl2]; norm_num
    rw [hdrop18]
    exact ⟨_, rfl, rfl⟩

theorem C4_altsetting_grouping_witness :
    parse_interface_loop 2 ([9, 4, 0, 0, 0, 0, 0, 0, 0] ++ [9, 4, 0, 1, 0, 0, 0, 0, 0])
        ((([9, 4, 0, 0, 0, 0, 0, 0, 0] ++ [9, 4, 0, 1, 0, 0, 0, 0, 0] : List Nat)).length : Int) =
      some (.ok ([ifdOfHdr [9, 4, 0, 0, 0, 0, 0, 0, 0], ifdOfHdr [9, 4, 0, 1, 0, 0, 0, 0, 0]],
        18)) ∧
    ∃ cfg, parse_configuration 2
        ([9, 2, 27, 0, 1, 1, 0, 128, 50] ++ [9, 4, 0, 0, 0, 0, 0, 0, 0] ++
          [9, 4, 0, 1, 0, 0, 0, 0, 0]) = some (.ok (cfg, 0)) ∧
      cfg.interface = some [{ altsetting :=
        [ifdOfHdr [9, 4, 0, 0, 0, 0, 0, 0, 0], ifdOfHdr [9, 4, 0, 1, 0, 0, 0, 0, 0]] }] :=
  ⟨C4_altsetting_grouping.2.1 [9, 4, 0, 0, 0, 0, 0, 0, 0] [9, 4, 0, 1, 0, 0, 0, 0, 0] 0
      (by decide) (by decide) (by decide) (by decide) (by decide) (by decide) (by decide)
      (by decide),
    C4_altsetting_grouping.2.2.2 [9, 2, 27, 0, 1, 1, 0, 128, 50] [9, 4, 0, 0, 0, 0, 0, 0, 0]
      [9, 4, 0, 1, 0, 0, 0, 0, 0] 0 (by decide) (by decide) (by decide) (by decide) (by decide)
      (by decide) (by decide) (by decide) (by decide) (by decide) (by decide) (by decide)
      (by decide)⟩

unseal ascii_loop in
/-- C8 counterexample: with the language-list fetch returning r = 4 with bytes
04 03 09 04 and the string fetch returning r = 6 with the scenario bytes
04 03 41 00 42 20, the call with a 4-byte output buffer returns count 1 and
output bytes 41 00 (the string "A" plus terminator), not the count 2 and
output "A?" the scenario asserts: the declared bLength 04 in the descriptor
header bounds the loop at tbuf[0], so only the single code unit 41 00 at
offsets 2..3 is consumed and the unit 42 20 beyond the declared length is
never read. -/
theorem C8_counterexample :
    libusb_get_string_descriptor_ascii
        ⟨fun idx _ => if idx = 0 then (4, [4, 3, 9, 4]) else (6, [4, 3, 65, 0, 66, 32])⟩
        1 [7, 7, 7, 7] 4 = .ok (1, [65, 0, 7, 7]) ∧ (1 : Nat) ≠ 2 := by
  refine ⟨?_, by decide⟩
  rw [libusb_get_string_descriptor_ascii]
  decide

/-- C8 (amended): when both backend fetches succeed and all the guards of
libusb_get_string_descriptor_ascii pass, the returned count is the number of
UTF-16 code units available up to the descriptor's declared length tbuf[0]
(that is, (tbuf[0] - 2 + 1) / 2 units starting at byte offset 2), capped by
the output capacity length - 1; and every written character byte k is the low
byte tbuf[2 + 2k] of its code unit when the high byte tbuf[2 + 2k + 1] is
zero, and the question mark 0x3F when the high byte is nonzero.  In the
scenario bytes 04 03 41 00 42 20 the declared length 04 admits one code unit,
so the output is "A" with count 1, not "A?" with count 2. -/
theorem C8_ascii_mapping (sb : StringBackend) (desc_index : Nat) (data : List Nat)
    (length : Int) (l0 r : Int) (lbuf tbuf : List Nat)
    (hl : sb.get_string_descriptor 0 0 = (l0, lbuf)) (hl4 : 4 ≤ l0)
    (ht : sb.get_string_descriptor desc_index (lbuf.getD 2 0 + 256 * lbuf.getD 3 0) =
      (r, tbuf))
    (hr : 0 ≤ r) (hty : tbuf.getD 1 0 = LIBUSB_DT_STRING)
    (hbl : (tbuf.getD 0 0 : Int) ≤ r)
    (hcap : length ≤ (data.length : Int)) (hlen : 1 ≤ length) :
    ∃ di out, libusb_get_string_descriptor_ascii sb desc_index data length = .ok (di, out) ∧
      di = min ((tbuf.getD 0 0 - 2 + 1) / 2) ((length - 1).toNat) ∧
      ∀ k, k < di → out.getD k 0 =
        if tbuf.getD (2 + 2 * k + 1) 0 ≠ 0 then 63 else tbuf.getD (2 + 2 * k) 0 := by
  obtain ⟨A1, A2, A3, A4⟩ := ascii_loop_spec (tbuf.getD 0 0) tbuf (tbuf.getD 0 0) length
    data 0 2 (by omega) hcap (by omega)
  rw [libusb_get_string_descriptor_ascii, hl]
  dsimp only
  rw [if_neg (by omega), if_neg (by omega), ht]
  dsimp only
  rw [if_neg (by omega), if_neg (not_not_intro hty), if_neg (by omega)]
  refine ⟨(ascii_loop tbuf (tbuf.getD 0 0) length data 0 2).1,
    (ascii_loop tbuf (tbuf.getD 0 0) length data 0 2).2.set
      (ascii_loop tbuf (tbuf.getD 0 0) length data 0 2).1 0, rfl, ?_, ?_⟩
  · rw [A1]
    have : (length - 1 - ((0 : Nat) : Int)).toNat = (length - 1).toNat := by
      push_cast; omega
    rw [this]
    omega
  · intro k hk
    rw [getD_set_ne _ _ _ _ (by omega)]
    have hv := A4 k (by omega) hk
    rw [show 2 + 2 * (k - 0) + 1 = 2 + 2 * k + 1 from by omega,
      show 2 + 2 * (k - 0) = 2 + 2 * k from by omega] at hv
    exact hv

theorem C8_ascii_mapping_witness :
    ∃ di out, libusb_get_string_descriptor_ascii
        ⟨fun idx _ => if idx = 0 then (4, [4, 3, 9, 4]) else (6, [4, 3, 65, 0, 66, 32])⟩
        1 [7, 7, 7, 7] 4 = .ok (di, out) ∧
      di = min ((([4, 3, 65, 0, 66, 32] : List Nat).getD 0 0 - 2 + 1) / 2)
        (((4 : Int) - 1).toNat) ∧
      ∀ k, k < di → out.getD k 0 =
        if ([4, 3, 65, 0, 66, 32] : List Nat).getD (2 + 2 * k + 1) 0 ≠ 0 then 63
        else ([4, 3, 65, 0, 66, 32] : List Nat).getD (2 + 2 * k) 0 :=
  C8_ascii_mapping
    ⟨fun idx _ => if idx = 0 then (4, [4, 3, 9, 4]) else (6, [4, 3, 65, 0, 66, 32])⟩
    1 [7, 7, 7, 7] 4 4 6 [4, 3, 9, 4] [4, 3, 65, 0, 66, 32]
    (by decide) (by decide) (by decide) (by decide) (by decide) (by decide)
    (by decide) (by decide)

/-- When every probed short header fetch succeeds and none of the `count`
configuration-value bytes matches `v`, the probe loop runs to the end with
found still -1 and i advanced past every index. -/
lemma by_value_probe_no_match (be : Backend) (v : Nat) : ∀ (count i : Nat),
    (∀ j, j < count → 0 ≤ (be.get_config_descriptor (i + j) 6).1 ∧
      (be.get_config_descriptor (i + j) 6).2.getD 5 0 ≠ v) →
    by_value_probe be v i count = .ok (-1, i + count) := by
  intro count
  induction count with
  | zero => intro i _; simp [by_value_probe]
  | succ c ih =>
    intro i h
    obtain ⟨h0r, h0v⟩ := h 0 (by omega)
    rw [by_value_probe]
    rw [if_neg (by simp at h0r ⊢; omega), if_neg (by simpa using h0v)]
    have := ih (i + 1) (fun j hj => by
      have := h (j + 1) (by omega)
      rwa [show i + (j + 1) = i + 1 + j from by omega] at this)
    rw [this, show i + 1 + c = i + (c + 1) from by omega]

/-- When the first `k` probed headers fetch successfully without matching and
the header at offset `k` fetches successfully and matches, the probe loop
stops there with found = 1 and i at that index. -/
lemma by_value_probe_first_match (be : Backend) (v : Nat) : ∀ (k i count : Nat),
    k < count →
    (∀ j, j < k → 0 ≤ (be.get_config_descriptor (i + j) 6).1 ∧
      (be.get_config_descriptor (i + j) 6).2.getD 5 0 ≠ v) →
    0 ≤ (be.get_config_descriptor (i + k) 6).1 →
    (be.get_config_descriptor (i + k) 6).2.getD 5 0 = v →
    by_value_probe be v i count = .ok (1, i + k) := by
  intro k
  induction k with
  | zero =>
    intro i count hkc _ hkr hkv
    cases count with
    | zero => omega
    | succ c =>
      rw [by_value_probe]
      rw [if_neg (by simp at hkr ⊢; omega), if_pos (by simpa using hkv)]
      simp
  | succ k ih =>
    intro i count hkc h hkr hkv
    cases count with
    | zero => omega
    | succ c =>
      obtain ⟨h0r, h0v⟩ := h 0 (by omega)
      rw [by_value_probe]
      rw [if_neg (by simp at h0r ⊢; omega), if_neg (by simpa using h0v)]
      have := ih (i + 1) c (by omega)
        (fun j hj => by
          have := h (j + 1) (by omega)
          rwa [show i + (j + 1) = i + 1 + j from by omega] at this)
        (by rwa [show i + 1 + k = i + (k + 1) from by omega])
        (by rwa [show i + 1 + k = i + (k + 1) from by omega])
      rw [this, show i + 1 + k = i + (k + 1) from by omega]

/-- C9: the by-value lookup probes the 6-byte short header of each
configuration index in order, comparing byte 5 against the wanted value.
First conjunct: if the first `k` headers fetch successfully without matching
and the header at index `k` fetches successfully and matches, the call
returns exactly what the by-index fetch returns for index `k`.  Second
conjunct: if every header fetches successfully and none matches, the call
returns NULL (the `found` variable stays -1, so the dead `if (!found)` check
is skipped, and the by-index call made with index num_configurations fails
its range check), never a descriptor. -/
theorem C9_by_value :
    (∀ (be : Backend) (fuel : Nat) (v k : Nat),
      k < be.num_configurations → k ≤ 255 →
      (∀ j, j < k → 0 ≤ (be.get_config_descriptor j 6).1 ∧
        (be.get_config_descriptor j 6).2.getD 5 0 ≠ v) →
      0 ≤ (be.get_config_descriptor k 6).1 →
      (be.get_config_descriptor k 6).2.getD 5 0 = v →
      libusb_get_config_descriptor_by_value be fuel v =
        libusb_get_config_descriptor be fuel k) ∧
    (∀ (be : Backend) (fuel : Nat) (v : Nat),
      be.num_configurations ≤ 255 →
      (∀ j, j < be.num_configurations → 0 ≤ (be.get_config_descriptor j 6).1 ∧
        (be.get_config_descriptor j 6).2.getD 5 0 ≠ v) →
      libusb_get_config_descriptor_by_value be fuel v = some none) := by
  constructor
  · intro be fuel v k hkn hk255 h hkr hkv
    have hp := by_value_probe_first_match be v k 0 be.num_configurations hkn
      (fun j hj => by simpa using h j hj) (by simpa using hkr) (by simpa using hkv)
    rw [libusb_get_config_descriptor_by_value, hp]
    dsimp only
    rw [if_neg (by norm_num), Nat.zero_add, Nat.mod_eq_of_lt (by omega)]
  · intro be fuel v hn h
    have hp := by_value_probe_no_match be v be.num_configurations 0
      (fun j hj => by simpa using h j hj)
    rw [libusb_get_config_descriptor_by_value, hp]
    dsimp only
    rw [if_neg (by norm_num), Nat.zero_add, Nat.mod_eq_of_lt (by omega),
      libusb_get_config_descriptor, if_pos (le_refl _)]

/-- A concrete two-configuration backend whose configurations carry
bConfigurationValue 1 and 2 respectively. -/
def beC9 : Backend where
  num_configurations := 2
  get_config_descriptor := fun i l =>
    ((l : Int), if i = 0 then [9, 2, 64, 0, 1, 1, 0, 128, 50]
      else [9, 2, 64, 0, 1, 2, 0, 128, 50])
  get_active_config_descriptor := fun l => ((l : Int), [])

theorem C9_by_value_witness :
    libusb_get_config_descriptor_by_value beC9 0 2 =
      libusb_get_config_descriptor beC9 0 1 ∧
    libusb_get_config_descriptor_by_value beC9 0 7 = some none :=
  ⟨C9_by_value.1 beC9 0 2 1 (by decide) (by decide) (by decide) (by decide) (by decide),
    C9_by_value.2 beC9 0 7 (by decide) (by decide)⟩

/-- C10: whenever libusb_get_string_descriptor_ascii is called with output
capacity length at least 1 (and a buffer of at least that capacity) and
returns a non-negative count di, then di is at most length - 1 (so at most
length - 1 character bytes were written), the terminating zero byte sits at
index di, every byte at an index past di is untouched (it still holds the
caller's original byte), and the buffer keeps its size: no write lands
outside the first di + 1 cells. -/
theorem C10_output_bounds (sb : StringBackend) (desc_index : Nat) (data : List Nat)
    (length : Int) (di : Nat) (out : List Nat)
    (hlen : 1 ≤ length) (hcap : length ≤ (data.length : Int))
    (h : libusb_get_string_descriptor_ascii sb desc_index data length = .ok (di, out)) :
    (di : Int) ≤ length - 1 ∧ out.getD di 0 = 0 ∧ out.length = data.length ∧
      ∀ j, di < j → out.getD j 0 = data.getD j 0 := by
  rw [libusb_get_string_descriptor_ascii] at h
  set lr := sb.get_string_descriptor 0 0 with hlr
  by_cases h1 : lr.1 < 0
  · rw [if_pos h1] at h; exact absurd h (by simp)
  rw [if_neg h1] at h
  by_cases h2 : lr.1 < 4
  · rw [if_pos h2] at h; exact absurd h (by simp)
  rw [if_neg h2] at h
  set sr := sb.get_string_descriptor desc_index (lr.2.getD 2 0 + 256 * lr.2.getD 3 0)
    with hsr
  by_cases h3 : sr.1 < 0
  · rw [if_pos h3] at h; exact absurd h (by simp)
  rw [if_neg h3] at h
  by_cases h4 : sr.2.getD 1 0 ≠ LIBUSB_DT_STRING
  · rw [if_pos h4] at h; exact absurd h (by simp)
  rw [if_neg h4] at h
  by_cases h5 : (sr.2.getD 0 0 : Int) > sr.1
  · rw [if_pos h5] at h; exact absurd h (by simp)
  rw [if_neg h5] at h
  obtain ⟨A1, A2, A3, A4⟩ := ascii_loop_spec (sr.2.getD 0 0) sr.2 (sr.2.getD 0 0) length
    data 0 2 (by omega) hcap (by omega)
  simp only [Except.ok.injEq, Prod.mk.injEq] at h
  obtain ⟨hdi, hout⟩ := h
  have hfst : (ascii_loop sr.2 (sr.2.getD 0 0) length data 0 2).1 = di := hdi
  have hdibound : (di : Int) ≤ length - 1 := by
    rw [← hfst, A1]
    have hmin : min ((sr.2.getD 0 0 - 2 + 1) / 2) ((length - 1 - ((0 : Nat) : Int)).toNat) ≤
        (length - 1 - ((0 : Nat) : Int)).toNat := min_le_right _ _
    push_cast at hmin ⊢
    omega
  have hdil : di < data.length := by omega
  refine ⟨hdibound, ?_, ?_, ?_⟩
  · rw [← hout, ← hfst]
    exact getD_set_self _ _ _ (by rw [A2]; omega)
  · rw [← hout, List.length_set, A2]
  · intro j hj
    rw [← hout, getD_set_ne _ _ _ _ (by omega)]
    exact A3 j (Or.inr (by omega))

unseal ascii_loop in
theorem C10_output_bounds_witness :
    ((2 : Nat) : Int) ≤ 5 - 1 ∧ ([65, 63, 0, 9, 9] : List Nat).getD 2 0 = 0 ∧
      ([65, 63, 0, 9, 9] : List Nat).length = ([9, 9, 9, 9, 9] : List Nat).length ∧
      ∀ j, 2 < j →
        ([65, 63, 0, 9, 9] : List Nat).getD j 0 = ([9, 9, 9, 9, 9] : List Nat).getD j 0 :=
  C10_output_bounds ⟨fun _ _ => (6, [6, 3, 65, 0, 66, 32])⟩ 1 [9, 9, 9, 9, 9] 5 2
    [65, 63, 0, 9, 9] (by decide) (by decide)
    (by rw [libusb_get_string_descriptor_ascii]; decide)
